import Mathlib

/-
Verification of the opennote content-generation pipeline.

This file shallowly embeds the parts of the repository that the claims
C1..C10 are about:

* the JSON value model and the deterministic text/JSON normalisation plus
  the bounded AI-assisted repair loop of `validateAndCorrectJson`
  (src/chrome-extension/content.js, second document);
* `extractJsonFromResponse` and the module persistence path of the capsule
  pipeline (src/convex/capsuleGeneration.ts, src/convex/capsules.ts);
* the start / outline / module-failure handlers of the orchestrator and a
  transition system over the durable store for reachability claims;
* the `sectionQuizSchema` zod validator (src/unnamed/part_010).

Modelling conventions: machine integers are Nat/Int; JavaScript exceptions
are `Except String`; the opaque LLM capability is an oracle function
parameter; the durable task scheduler is a list of pending tasks.  JSON
numbers are modelled as integers: no claim in this development touches
fractional literals, and the parser rejects them like it rejects any other
unsupported form.
-/

namespace Opennote

/-- Left brace character, kept out of literals. -/
def lcurly : Char := Char.ofNat 123

/-- Right brace character, kept out of literals. -/
def rcurly : Char := Char.ofNat 125

/-- JSON values as produced by JavaScript `JSON.parse` on the fragment this
development evaluates. -/
inductive Json where
  | null : Json
  | bool (b : Bool) : Json
  | num (n : Int) : Json
  | str (s : String) : Json
  | arr (elems : List Json) : Json
  | obj (fields : List (String × Json)) : Json
deriving Repr, BEq

/-- Whitespace accepted by the JSON grammar (and by the trimming helpers). -/
def isWsChar (c : Char) : Bool :=
  c = ' ' || c = '\t' || c = '\n' || c = '\r'

/-- Drop leading JSON whitespace. -/
def skipWs : List Char → List Char
  | [] => []
  | c :: cs => if isWsChar c then skipWs cs else c :: cs

/-- Drop leading and trailing whitespace, the model of JavaScript
`String.prototype.trim` on ASCII input. -/
def wsTrimChars (cs : List Char) : List Char :=
  ((skipWs ((skipWs cs.reverse))).reverse)

/-- JavaScript `trim` on strings. -/
def jsTrim (s : String) : String :=
  String.mk (wsTrimChars s.data)

/-- Hex digit value, for `\u` escapes. -/
def parseHexDigit (c : Char) : Option Nat :=
  if '0' ≤ c ∧ c ≤ '9' then some (c.toNat - '0'.toNat)
  else if 'a' ≤ c ∧ c ≤ 'f' then some (c.toNat - 'a'.toNat + 10)
  else if 'A' ≤ c ∧ c ≤ 'F' then some (c.toNat - 'A'.toNat + 10)
  else none

/-- Body of a JSON string literal (after the opening quote), with the escape
forms `JSON.parse` accepts; raw control characters and unknown escapes are
parse errors, exactly as in `JSON.parse`. -/
def parseStringBody : Nat → List Char → List Char → Option (String × List Char)
  | 0, _, _ => none
  | fuel + 1, acc, cs =>
    match cs with
    | [] => none
    | '"' :: rest => some (String.mk acc.reverse, rest)
    | '\\' :: esc :: rest =>
      match esc with
      | '"' => parseStringBody fuel ('"' :: acc) rest
      | '\\' => parseStringBody fuel ('\\' :: acc) rest
      | '/' => parseStringBody fuel ('/' :: acc) rest
      | 'n' => parseStringBody fuel ('\n' :: acc) rest
      | 't' => parseStringBody fuel ('\t' :: acc) rest
      | 'r' => parseStringBody fuel ('\r' :: acc) rest
      | 'b' => parseStringBody fuel (Char.ofNat 8 :: acc) rest
      | 'f' => parseStringBody fuel (Char.ofNat 12 :: acc) rest
      | 'u' =>
        match rest with
        | h1 :: h2 :: h3 :: h4 :: rest2 =>
          match parseHexDigit h1, parseHexDigit h2, parseHexDigit h3, parseHexDigit h4 with
          | some a, some b, some c, some d =>
            parseStringBody fuel (Char.ofNat (((a * 16 + b) * 16 + c) * 16 + d) :: acc) rest2
          | _, _, _, _ => none
        | _ => none
      | _ => none
    | c :: rest =>
      if c.toNat < 32 then none else parseStringBody fuel (c :: acc) rest

/-- Split a run of decimal digits off the front of the input. -/
def splitDigits : List Char → List Char × List Char
  | [] => ([], [])
  | c :: cs =>
    if c.isDigit then
      let p := splitDigits cs
      (c :: p.1, p.2)
    else ([], c :: cs)

/-- Numeric value of a digit run. -/
def digitsToNat (ds : List Char) : Nat :=
  List.foldl (fun acc d => acc * 10 + (d.toNat - '0'.toNat)) 0 ds

/-- Integer literal parse (optional minus, digits, no leading zeros); a
following `.`/`e`/`E` is outside the supported fragment and fails. -/
def parseNumberChars (cs : List Char) : Option (Json × List Char) :=
  let (neg, body) :=
    match cs with
    | '-' :: rest => (true, rest)
    | _ => (false, cs)
  let (digits, rest) := splitDigits body
  match digits with
  | [] => none
  | d :: ds =>
    if d = '0' ∧ ds ≠ [] then none
    else
      match rest with
      | c :: _ =>
        if c = '.' ∨ c = 'e' ∨ c = 'E' then none
        else
          let n : Int := Int.ofNat (digitsToNat (d :: ds))
          some (Json.num (if neg then -n else n), rest)
      | [] =>
        let n : Int := Int.ofNat (digitsToNat (d :: ds))
        some (Json.num (if neg then -n else n), rest)

mutual

/-- One JSON value from the front of the input (fuelled). -/
def parseJsonValue : Nat → List Char → Option (Json × List Char)
  | 0, _ => none
  | fuel + 1, cs =>
    let cs := skipWs cs
    match cs with
    | [] => none
    | 'n' :: 'u' :: 'l' :: 'l' :: rest => some (Json.null, rest)
    | 't' :: 'r' :: 'u' :: 'e' :: rest => some (Json.bool true, rest)
    | 'f' :: 'a' :: 'l' :: 's' :: 'e' :: rest => some (Json.bool false, rest)
    | '"' :: rest =>
      match parseStringBody (rest.length + 1) [] rest with
      | some (s, rest2) => some (Json.str s, rest2)
      | none => none
    | '[' :: rest =>
      let rest := skipWs rest
      match rest with
      | ']' :: rest2 => some (Json.arr [], rest2)
      | _ => parseArrayItems fuel [] rest
    | c :: rest =>
      if c = lcurly then
        let rest := skipWs rest
        match rest with
        | c2 :: rest2 =>
          if c2 = rcurly then some (Json.obj [], rest2)
          else parseObjFields fuel [] rest
        | [] => none
      else if c = '-' ∨ c.isDigit then parseNumberChars cs
      else none

/-- Comma-separated array items up to the closing bracket (fuelled). -/
def parseArrayItems : Nat → List Json → List Char → Option (Json × List Char)
  | 0, _, _ => none
  | fuel + 1, acc, cs =>
    match parseJsonValue fuel cs with
    | none => none
    | some (v, rest) =>
      let rest := skipWs rest
      match rest with
      | ']' :: rest2 => some (Json.arr (acc ++ [v]), rest2)
      | ',' :: rest2 => parseArrayItems fuel (acc ++ [v]) rest2
      | _ => none

/-- Comma-separated object fields up to the closing brace (fuelled). -/
def parseObjFields : Nat → List (String × Json) → List Char → Option (Json × List Char)
  | 0, _, _ => none
  | fuel + 1, acc, cs =>
    let cs := skipWs cs
    match cs with
    | '"' :: rest =>
      match parseStringBody (rest.length + 1) [] rest with
      | none => none
      | some (key, rest2) =>
        let rest2 := skipWs rest2
        match rest2 with
        | ':' :: rest3 =>
          match parseJsonValue fuel rest3 with
          | none => none
          | some (v, rest4) =>
            let rest4 := skipWs rest4
            match rest4 with
            | ',' :: rest5 => parseObjFields fuel (acc ++ [(key, v)]) rest5
            | c :: rest5 =>
              if c = rcurly then some (Json.obj (acc ++ [(key, v)]), rest5)
              else none
            | [] => none
        | _ => none
    | _ => none

end

/-- Model of JavaScript `JSON.parse`: the whole input must be one value
followed only by whitespace. -/
def jsonParse (s : String) : Option Json :=
  let cs := s.data
  match parseJsonValue (4 * cs.length + 8) cs with
  | some (v, rest) => if skipWs rest = [] then some v else none
  | none => none

/-- Hexadecimal digit character. -/
def hexDigitChar (n : Nat) : Char :=
  if n < 10 then Char.ofNat ('0'.toNat + n) else Char.ofNat ('a'.toNat + (n - 10))

/-- Escaping of one character inside a serialized JSON string, as done by
`JSON.stringify`. -/
def escapeJsonChar (c : Char) : List Char :=
  if c = '"' then ['\\', '"']
  else if c = '\\' then ['\\', '\\']
  else if c = '\n' then ['\\', 'n']
  else if c = '\t' then ['\\', 't']
  else if c = '\r' then ['\\', 'r']
  else if c.toNat = 8 then ['\\', 'b']
  else if c.toNat = 12 then ['\\', 'f']
  else if c.toNat < 32 then
    ['\\', 'u', '0', '0', hexDigitChar (c.toNat / 16), hexDigitChar (c.toNat % 16)]
  else [c]

/-- Quoted serialized JSON string. -/
def quoteJsonString (s : String) : String :=
  String.mk ('"' :: (s.data.map escapeJsonChar).flatten ++ ['"'])

/-- Indentation run, for the two-space pretty-printing of
`JSON.stringify(value, null, 2)`. -/
def indentChars (n : Nat) : String :=
  String.mk (List.replicate n ' ')

mutual

/-- Model of `JSON.stringify(v, null, 2)` at indentation level `ind`. -/
def stringifyVal : Json → Nat → String
  | Json.null, _ => "null"
  | Json.bool true, _ => "true"
  | Json.bool false, _ => "false"
  | Json.num n, _ => toString n
  | Json.str s, _ => quoteJsonString s
  | Json.arr [], _ => "[]"
  | Json.arr (x :: xs), ind =>
    "[\n" ++ stringifyItems (x :: xs) (ind + 2) ++ "\n" ++ indentChars ind ++ "]"
  | Json.obj [], _ => String.mk [lcurly, rcurly]
  | Json.obj (f :: fs), ind =>
    String.singleton lcurly ++ "\n" ++ stringifyFields (f :: fs) (ind + 2) ++ "\n" ++
      indentChars ind ++ String.singleton rcurly

/-- Array items, one per line. -/
def stringifyItems : List Json → Nat → String
  | [], _ => ""
  | [x], ind => indentChars ind ++ stringifyVal x ind
  | x :: y :: xs, ind =>
    indentChars ind ++ stringifyVal x ind ++ ",\n" ++ stringifyItems (y :: xs) ind

/-- Object fields, one per line. -/
def stringifyFields : List (String × Json) → Nat → String
  | [], _ => ""
  | [(k, v)], ind => indentChars ind ++ quoteJsonString k ++ ": " ++ stringifyVal v ind
  | (k, v) :: g :: fs, ind =>
    indentChars ind ++ quoteJsonString k ++ ": " ++ stringifyVal v ind ++ ",\n" ++
      stringifyFields (g :: fs) ind

end

-- =============================================================================
-- Output Repair Engine (src/chrome-extension/content.js, second document)
-- =============================================================================

/-- The fixed list of LaTeX commands whose broken single-backslash escapes
`fixLatexEscapes` repairs, in source order. -/
def latexCommands : List String :=
  ["pi", "sigma", "omega", "alpha", "beta", "gamma", "delta", "epsilon",
   "theta", "lambda", "mu", "nu", "rho", "tau", "phi", "psi", "chi",
   "frac", "sqrt", "sum", "prod", "int", "oint", "partial", "nabla",
   "infty", "cdot", "times", "div", "pm", "mp", "leq", "geq", "neq",
   "approx", "sin", "cos", "tan", "cot", "sec", "csc", "log", "ln",
   "exp", "lim", "left", "right", "begin", "end", "text", "mathrm", "mathbf"]

/-- Does the remaining input start with an ASCII letter (the negative
lookahead of the replacement pattern)? -/
def nextIsLetter : List Char → Bool
  | [] => false
  | c :: _ => c.isAlpha

/-- One global-replace pass for a single command: rewrite `\cmd` to `\\cmd`
when the backslash is not preceded by another backslash and the command is
not followed by a letter, scanning left to right exactly like the regex
`(?<!\\)\\cmd(?![a-zA-Z])` with the `g` flag.  The fuel argument (any
value at least the input length works; the scan consumes at least one
character per step) keeps the recursion structural. -/
def fixCmdScan (cmd : List Char) : Nat → List Char → Option Char → List Char
  | _, [], _ => []
  | 0, _ :: _, _ => []
  | fuel + 1, c :: rest, prev =>
    if c = '\\' ∧ prev ≠ some '\\' ∧ cmd.isPrefixOf rest = true ∧
        nextIsLetter (rest.drop cmd.length) = false then
      '\\' :: '\\' ::
        (cmd ++ fixCmdScan cmd fuel (rest.drop cmd.length) (some (cmd.getLastD 'a')))
    else c :: fixCmdScan cmd fuel rest (some c)

/-- Model of `fixLatexEscapes`: apply one replacement pass per command, in
list order. -/
def fixLatexEscapes (s : String) : String :=
  latexCommands.foldl
    (fun acc cmd => String.mk (fixCmdScan cmd.data acc.data.length acc.data none)) s

mutual

/-- Model of `removeEmptyArrays`: object fields whose value is an empty
array are dropped; everything else is traversed recursively. -/
def removeEmptyArrays : Json → Json
  | Json.arr xs => Json.arr (removeEmptyArraysList xs)
  | Json.obj fs => Json.obj (removeEmptyArraysFields fs)
  | Json.null => Json.null
  | Json.bool b => Json.bool b
  | Json.num n => Json.num n
  | Json.str s => Json.str s

/-- `removeEmptyArrays` on array elements. -/
def removeEmptyArraysList : List Json → List Json
  | [] => []
  | x :: xs => removeEmptyArrays x :: removeEmptyArraysList xs

/-- `removeEmptyArrays` on object fields. -/
def removeEmptyArraysFields : List (String × Json) → List (String × Json)
  | [] => []
  | (k, v) :: fs =>
    match v with
    | Json.arr [] => removeEmptyArraysFields fs
    | _ => (k, removeEmptyArrays v) :: removeEmptyArraysFields fs

end

/-- The code-fence marker. -/
def fenceMarker : List Char := "```".data

/-- Contents of a fenced code block when the whole (trimmed) input is a
single fenced block, the shape the repair pipeline meets; model of the
first branch of `stripMarkdownFences`. -/
def fenceInner (cs : List Char) : Option (List Char) :=
  if fenceMarker.isPrefixOf cs = true then
    let rest := cs.drop 3
    let rest := if "json".data.isPrefixOf rest = true then rest.drop 4 else rest
    let rest := skipWs rest
    if fenceMarker.isSuffixOf rest = true ∧ 3 ≤ rest.length then
      some (rest.take (rest.length - 3))
    else none
  else none

/-- Characters that may open the greedy JSON-ish capture `[\[{]`. -/
def isOpenBraceChar (c : Char) : Bool :=
  c = lcurly || c = '['

/-- Characters that may close the greedy JSON-ish capture `[\]}]`. -/
def isCloseBraceChar (c : Char) : Bool :=
  c = rcurly || c = ']'

/-- Index of the last character satisfying `p`. -/
def lastIdxWhere (p : Char → Bool) (cs : List Char) : Option Nat :=
  match cs.reverse.findIdx? p with
  | some k => some (cs.length - 1 - k)
  | none => none

/-- Model of `stripMarkdownFences`: prefer the fenced-block contents, fall
back to the substring from the first `{`/`[` to the last `}`/`]`, else
return the trimmed input. -/
def stripMarkdownFences (raw : String) : String :=
  let trimmed := jsTrim raw
  match fenceInner trimmed.data with
  | some inner => jsTrim (String.mk inner)
  | none =>
    let cs := trimmed.data
    match cs.findIdx? isOpenBraceChar, lastIdxWhere isCloseBraceChar cs with
    | some i, some j =>
      if i < j then jsTrim (String.mk ((cs.drop i).take (j - i + 1))) else trimmed
    | _, _ => trimmed

/-- A schema bound to the repair engine, with zod's `parse` shape: on a
valid value it returns the parsed value — which zod may transform, e.g. by
stripping unknown object keys and re-ordering fields to schema order — and
on an invalid value it throws, here the violation message. -/
def JsonSchema : Type := Json → Except String Json

/-- `DEFAULT_ATTEMPTS` from the source. -/
def defaultAttempts : Nat := 5

/-- `PROMPT_TRUNCATION_LIMIT` from the source. -/
def promptTruncationLimit : Nat := 12000

/-- The repair-request payload handed to the repair-specialist LLM call. -/
structure RepairPayload where
  format : String
  schemaName : String
  schemaDescription : String
  previousOutput : String
  errorMessage : String
  originalInput : Option String
  attempt : Nat

/-- The options record of `validateAndCorrectJson`, with the schema kept as
a separate parameter. -/
structure RepairOptions where
  schemaName : String
  schemaDescription : String
  originalInput : Option String
  format : String
  maxAttempts : Nat

/-- The option defaults from the source destructuring. -/
def defaultRepairOptions : RepairOptions :=
  ⟨"JSON payload", "Generic JSON structure", none, "generic-json", defaultAttempts⟩

/-- Fixed model of the `JSON.parse` exception message. -/
def jsonParseErrorMsg : String := "Unexpected token in JSON"

/-- One parse/validate cycle of the loop body: strip fences, fix LaTeX
escapes, parse, drop empty-array fields, then validate.  With a schema the
success result is `JSON.stringify(schema.parse(parsed), null, 2)` — the
serialization of the value the schema's `parse` returns, not of the raw
parsed value; without a schema it is the serialization of the parsed
value. -/
def attemptCycle (schema : Option JsonSchema) (current : String) : Except String String :=
  let clean := stripMarkdownFences current
  let fixed := fixLatexEscapes clean
  match jsonParse fixed with
  | none => Except.error jsonParseErrorMsg
  | some parsed =>
    let cleaned := removeEmptyArrays parsed
    match schema with
    | none => Except.ok (stringifyVal cleaned 0)
    | some sch =>
      match sch cleaned with
      | Except.ok validated => Except.ok (stringifyVal validated 0)
      | Except.error violation => Except.error violation

/-- Result of a run of the repair engine, instrumented with the number of
LLM repair calls issued and of parse/validate cycles executed. -/
structure RepairRun where
  result : Except String String
  repairCalls : Nat
  cycles : Nat
deriving Repr

/-- `buildErrorMessage(lastError)` when no error was ever recorded renders
the JavaScript `undefined`. -/
def undefMsg : Option String → String
  | some m => m
  | none => "undefined"

/-- The exhaustion error text of `validateAndCorrectJson`. -/
def repairFailureMsg (maxAttempts : Nat) (lastErr : Option String) : String :=
  "Failed to validate JSON after " ++ toString maxAttempts ++ " attempts: " ++ undefMsg lastErr

/-- Model of `repairStructuredJson`: one LLM oracle call followed by fence
stripping of the response. -/
def repairStructuredJson (llm : RepairPayload → String) (p : RepairPayload) : String :=
  stripMarkdownFences (llm p)

/-- The bounded attempt loop of `validateAndCorrectJson`: arguments are the
remaining attempts, the zero-based attempt counter, the current candidate
text and the last recorded error. -/
def repairLoop (schema : Option JsonSchema) (llm : RepairPayload → String)
    (opts : RepairOptions) :
    Nat → Nat → String → Option String → RepairRun
  | 0, _, _, lastErr =>
    ⟨Except.error (repairFailureMsg opts.maxAttempts lastErr), 0, 0⟩
  | remaining + 1, attempt, current, _ =>
    match attemptCycle schema current with
    | Except.ok out => ⟨Except.ok out, 0, 1⟩
    | Except.error e =>
      let payload : RepairPayload :=
        ⟨opts.format, opts.schemaName, opts.schemaDescription,
          current.take promptTruncationLimit, e,
          opts.originalInput.map (fun s => s.take promptTruncationLimit),
          attempt + 1⟩
      let next := repairStructuredJson llm payload
      let rest := repairLoop schema llm opts remaining (attempt + 1) next (some e)
      ⟨rest.result, rest.repairCalls + 1, rest.cycles + 1⟩

/-- Model of `validateAndCorrectJson`: fence-strip the input once, then run
up to `opts.maxAttempts` parse/validate cycles with AI-assisted repair
between failed cycles. -/
def validateAndCorrectJson (jsonString : String) (schema : Option JsonSchema)
    (llm : RepairPayload → String) (opts : RepairOptions) : RepairRun :=
  repairLoop schema llm opts opts.maxAttempts 0 (stripMarkdownFences jsonString) none

-- =============================================================================
-- JSON access helpers (JavaScript object/field semantics)
-- =============================================================================

/-- Field lookup on a JSON object (`undefined` on anything else). -/
def Json.getField (j : Json) (k : String) : Option Json :=
  match j with
  | Json.obj fs => fs.lookup k
  | _ => none

/-- JavaScript falsiness of a JSON value. -/
def jsFalsy : Json → Bool
  | Json.null => true
  | Json.bool b => !b
  | Json.num n => n == 0
  | Json.str s => s == ""
  | Json.arr _ => false
  | Json.obj _ => false

/-- String contents of a JSON value, if it is a string. -/
def Json.asStr : Json → Option String
  | Json.str s => some s
  | _ => none

/-- JavaScript `a || b` on a possibly-absent field: the field's value when
present and truthy, the fallback otherwise.  The result keeps whatever
type the field had — a truthy non-string is passed through, not coerced. -/
def jsOrElse (v : Option Json) (d : Json) : Json :=
  match v with
  | some x => if jsFalsy x then d else x
  | none => d

/-- Model of `m || default` on an optional string. -/
def jsStrOrDefault (m : Option String) (d : String) : String :=
  match m with
  | some s => if s = "" then d else s
  | none => d

-- =============================================================================
-- extractJsonFromResponse and the module persistence path
-- (src/convex/capsuleGeneration.ts, src/convex/capsules.ts)
-- =============================================================================

/-- Split the input at the first occurrence of the code-fence marker:
the part before it and the part after it. -/
def splitAtMarker : List Char → Option (List Char × List Char)
  | [] => none
  | c :: cs =>
    if fenceMarker.isPrefixOf (c :: cs) = true then some ([], (c :: cs).drop 3)
    else
      match splitAtMarker cs with
      | some (pre, post) => some (c :: pre, post)
      | none => none

/-- Contents of the first fenced code block anywhere in the input, the
model of the regex match in `extractJsonFromResponse`. -/
def extractFencedJson (cs : List Char) : Option (List Char) :=
  match splitAtMarker cs with
  | none => none
  | some (_, afterOpen) =>
    let afterOpen := if "json".data.isPrefixOf afterOpen = true then afterOpen.drop 4 else afterOpen
    match splitAtMarker afterOpen with
    | none => none
    | some (inner, _) => some (wsTrimChars inner)

/-- Model of `extractJsonFromResponse`: direct parse, then fenced-block
parse, then the substring between the first `{` and the last `}`, else a
thrown error. -/
def extractJsonFromResponse (text : String) : Except String Json :=
  match jsonParse text with
  | some j => Except.ok j
  | none =>
    let viaFence :=
      match extractFencedJson text.data with
      | some inner => jsonParse (String.mk inner)
      | none => none
    match viaFence with
    | some j => Except.ok j
    | none =>
      let cs := text.data
      match cs.findIdx? (fun c => c = lcurly), lastIdxWhere (fun c => c = rcurly) cs with
      | some i, some j =>
        if i < j then
          match jsonParse (String.mk ((cs.drop i).take (j - i + 1))) with
          | some v => Except.ok v
          | none => Except.error "Could not parse JSON from AI response"
        else Except.error "Could not parse JSON from AI response"
      | _, _ => Except.error "Could not parse JSON from AI response"

/-- A persisted capsule lesson row, as inserted by `saveGeneratedModule`. -/
structure LessonRow where
  title : String
  description : Option String
  order : Nat
  type : String
  content : Json
deriving Repr

/-- A persisted capsule module row, as inserted by `saveGeneratedModule`. -/
structure ModuleRow where
  title : String
  description : Option String
  introduction : Option String
  learningObjectives : Option (List String)
  moduleSummary : Option String
  order : Nat
deriving Repr

/-- A module together with its lessons, persisted as one mutation. -/
structure SavedModule where
  moduleRow : ModuleRow
  lessonRows : List LessonRow
deriving Repr

/-- The module-outline context (`moduleOutline.title/description`) handed
to the module-content stage. -/
structure ModuleOutlineInfo where
  title : String
  description : Option String
deriving Repr, DecidableEq

/-- Convex argument validation `v.string()`: any non-string argument makes
the mutation call throw an ArgumentValidationError before its handler runs. -/
def vString : Json → Except String String
  | Json.str s => Except.ok s
  | _ => Except.error "ArgumentValidationError: Value does not match validator v.string()"

/-- Convex argument validation `v.optional(v.string())`: the field may be
absent (`undefined`), but any present non-string value — `null` included —
is rejected. -/
def vOptionalString : Option Json → Except String (Option String)
  | none => Except.ok none
  | some (Json.str s) => Except.ok (some s)
  | some _ => Except.error "ArgumentValidationError: Value does not match validator v.optional(v.string())"

/-- Convex argument validation `v.optional(v.array(v.string()))`: absent is
fine; a present value must be an array whose every element is a string. -/
def vOptionalStringArray : Option Json → Except String (Option (List String))
  | none => Except.ok none
  | some (Json.arr xs) =>
    match xs.mapM Json.asStr with
    | some ss => Except.ok (some ss)
    | none => Except.error "ArgumentValidationError: Value does not match validator v.optional(v.array(v.string()))"
  | some _ => Except.error "ArgumentValidationError: Value does not match validator v.optional(v.array(v.string()))"

/-- The `description` argument of the mutation:
`moduleContent.description || moduleOutline.description` — the outline's
description (possibly absent) whenever the response field is missing or
falsy. -/
def moduleDescValue (mo : ModuleOutlineInfo) (content : Json) : Option Json :=
  match content.getField "description" with
  | some x => if jsFalsy x then mo.description.map Json.str else some x
  | none => mo.description.map Json.str

/-- Whether a JSON value is `null` — property access on it throws. -/
def jsonIsNull : Json → Bool
  | Json.null => true
  | _ => false

/-- `lesson.content || lesson`: the lesson object itself when its `content`
field is missing or falsy.  Passed to the mutation as `v.any()`, so it is
persisted verbatim with no check at all. -/
def lessonContentOf (lesson : Json) : Json :=
  match lesson.getField "content" with
  | some c => if jsFalsy c then lesson else c
  | none => lesson

/-- One element of the `lessons` mutation argument, as built by
`generateModuleContent` and checked by `saveGeneratedModule`'s validators:
title `lesson.title || "Lesson {idx+1}"` through `v.string()` (a truthy
non-string title is rejected), description through `v.optional(v.string())`,
order `idx`, type `"mixed"`, content `lesson.content || lesson` through
`v.any()`.  A `null` array element makes the property access itself throw. -/
def lessonRowOf (idx : Nat) (lesson : Json) : Except String LessonRow :=
  if jsonIsNull lesson then Except.error "TypeError: Cannot read properties of null"
  else
    match vString (jsOrElse (lesson.getField "title")
        (Json.str ("Lesson " ++ toString (idx + 1)))) with
    | Except.error e => Except.error e
    | Except.ok title =>
      match vOptionalString (lesson.getField "description") with
      | Except.error e => Except.error e
      | Except.ok desc => Except.ok ⟨title, desc, idx, "mixed", lessonContentOf lesson⟩

/-- The lesson list of the response: `moduleContent.lessons || []`, on
which the stage calls `.map` — a missing or falsy field yields the empty
list, while a truthy non-array value makes the call itself throw. -/
def lessonsOf (content : Json) : Except String (List Json) :=
  match content.getField "lessons" with
  | none => Except.ok []
  | some (Json.arr xs) => Except.ok xs
  | some x =>
    if jsFalsy x then Except.ok []
    else Except.error "TypeError: moduleContent.lessons.map is not a function"

/-- What `saveGeneratedModule` persists for module `moduleIndex`, built
from the module-content response exactly as `generateModuleContent` builds
its mutation arguments and checked by the mutation's Convex argument
validators.  Any validator rejection — or the `.map` TypeError on a truthy
non-array `lessons` — is a thrown error: the mutation never runs and
nothing is persisted for this response. -/
def buildSavedModule (moduleIndex : Nat) (mo : ModuleOutlineInfo) (content : Json) :
    Except String SavedModule :=
  match vString (jsOrElse (content.getField "title") (Json.str mo.title)) with
  | Except.error e => Except.error e
  | Except.ok title =>
    match vOptionalString (moduleDescValue mo content) with
    | Except.error e => Except.error e
    | Except.ok description =>
      match vOptionalString (content.getField "introduction") with
      | Except.error e => Except.error e
      | Except.ok introduction =>
        match vOptionalStringArray (content.getField "learningObjectives") with
        | Except.error e => Except.error e
        | Except.ok learningObjectives =>
          match vOptionalString (content.getField "moduleSummary") with
          | Except.error e => Except.error e
          | Except.ok moduleSummary =>
            match lessonsOf content with
            | Except.error e => Except.error e
            | Except.ok lessonJsons =>
              match lessonJsons.enum.mapM (fun p => lessonRowOf p.1 p.2) with
              | Except.error e => Except.error e
              | Except.ok rows =>
                Except.ok ⟨⟨title, description, introduction,
                  learningObjectives, moduleSummary, moduleIndex⟩, rows⟩

/-- The success path of the module-content stage, from the raw AI response
text to the persisted rows: parse with `extractJsonFromResponse`, then
build the mutation arguments and run them through the mutation's argument
validators.  The path contains no content schema validation and no repair
engine; a validator rejection surfaces as a thrown error caught by the
stage's generic retry/failure handler. -/
def processModuleResponse (moduleIndex : Nat) (mo : ModuleOutlineInfo) (text : String) :
    Except String SavedModule :=
  match extractJsonFromResponse text with
  | Except.error e => Except.error e
  | Except.ok content => buildSavedModule moduleIndex mo content

/-- The item id of a drag-drop item/target object. -/
def jsonIdOf (j : Json) : Option String :=
  (j.getField "id").bind Json.asStr

/-- The `acceptsItems` list of a drag-drop target object. -/
def acceptsOf (t : Json) : List String :=
  match t.getField "acceptsItems" with
  | some (Json.arr xs) => xs.filterMap Json.asStr
  | _ => []

/-- Modelled from the spec (§4.2, §6): the drag-drop item/target bijection
rule the spec asserts is a hard validation gate on module-content
generator output — item count equals target count, every item id appears
in exactly one target's `acceptsItems`, and every target accepts at least
one item.  The module-content path of the source contains no such check;
this definition exists only to compare the spec's claimed gate against the
code's behaviour. -/
def specDragDropGate (q : Json) : Bool :=
  match q.getField "items", q.getField "targets" with
  | some (Json.arr items), some (Json.arr targets) =>
    let ids := items.filterMap jsonIdOf
    (items.length == targets.length) &&
      targets.all (fun t => !(acceptsOf t).isEmpty) &&
      ids.all (fun i => targets.countP (fun t => (acceptsOf t).contains i) == 1)
  | _, _ => false

-- =============================================================================
-- sectionQuizSchema (src/unnamed/part_010)
-- =============================================================================

/-- The `quizQuestionTypes` enum of the notes schemas. -/
def quizQuestionTypes : List String := ["mcq", "true-false", "fill-blank"]

/-- Base (pre-refinement) issues of `sectionQuizSchema`: the object shape
and per-field checks, with the zod messages the source spells out. -/
def sectionQuizBaseIssues (j : Json) : List String :=
  match j with
  | Json.obj _ =>
    (match (j.getField "type").bind Json.asStr with
      | some t => if quizQuestionTypes.contains t then [] else ["Invalid enum value"]
      | none => ["Required: type"]) ++
    (match (j.getField "question").bind Json.asStr with
      | some q => if q = "" then ["Quiz question cannot be empty"] else []
      | none => ["Required: question"]) ++
    (match j.getField "options" with
      | none => []
      | some (Json.arr xs) =>
        if xs.all (fun x => match x with | Json.str s => s ≠ "" | _ => false) then []
        else ["Invalid options entries"]
      | some _ => ["Expected array: options"]) ++
    (match (j.getField "correctAnswer").bind Json.asStr with
      | some a => if a = "" then ["Quiz answer cannot be empty"] else []
      | none => ["Required: correctAnswer"]) ++
    (match (j.getField "explanation").bind Json.asStr with
      | some e => if e = "" then ["Quiz explanation cannot be empty"] else []
      | none => ["Required: explanation"])
  | _ => ["Expected object"]

/-- The parsed `options` array, as the refinement sees it. -/
def quizOptionsOf (j : Json) : Option (List String) :=
  match j.getField "options" with
  | some (Json.arr xs) => some (xs.filterMap Json.asStr)
  | _ => none

/-- The `superRefine` issues of `sectionQuizSchema`, exactly as in the
source: an MCQ needs options present with length 4, else — only then — the
correct answer must be among the options; a non-MCQ must not carry a
non-empty options array. -/
def sectionQuizRefineIssues (j : Json) : List String :=
  let t := ((j.getField "type").bind Json.asStr).getD ""
  let opts := quizOptionsOf j
  let ca := ((j.getField "correctAnswer").bind Json.asStr).getD ""
  (if t = "mcq" then
    match opts with
    | none => ["Multiple choice questions require exactly 4 options"]
    | some os =>
      if os.length ≠ 4 then ["Multiple choice questions require exactly 4 options"]
      else if os.contains ca then [] else ["Correct answer must be one of the provided options"]
  else []) ++
  (if t ≠ "mcq" then
    match opts with
    | some os => if os.length > 0 then ["Only multiple choice questions can include options"] else []
    | none => []
  else [])

/-- Model of `sectionQuizSchema.parse` issues: base shape errors abort
before `superRefine`; the empty list means the item is accepted. -/
def sectionQuizIssues (j : Json) : List String :=
  match sectionQuizBaseIssues j with
  | [] => sectionQuizRefineIssues j
  | issues => issues

-- =============================================================================
-- Orchestrator handler models (src/convex/capsuleGeneration.ts)
-- =============================================================================

/-- The capsule status enum. -/
inductive CapsuleStatus where
  | pending
  | generatingOutline
  | generatingContent
  | completed
  | failed
deriving DecidableEq, Repr

/-- Effects of one execution of the catch block of `generateModuleContent`
for module index `moduleIndex`, given the job's stored `retryCount`: the
job's retry count after the handler, the capsule status update (with error
message) if any, and the scheduled retry `(delayMs, moduleIndex)` if any. -/
structure ModuleFailureEffects where
  newRetryCount : Nat
  statusUpdate : Option (CapsuleStatus × String)
  scheduledRetry : Option (Nat × Nat)
deriving Repr, DecidableEq

/-- The module-failure policy: read the retry count, increment it; below 3
persist it and reschedule the same index after `2 ^ retryCount` seconds,
otherwise fail the capsule with the module-specific message and schedule
nothing (the stored retry count is left unchanged on this branch). -/
def moduleFailureHandler (moduleIndex : Nat) (retryCount : Nat) : ModuleFailureEffects :=
  let rc := retryCount + 1
  if rc < 3 then
    ⟨rc, none, some (2 ^ rc * 1000, moduleIndex)⟩
  else
    ⟨retryCount,
      some (CapsuleStatus.failed,
        "Failed to generate module " ++ toString (moduleIndex + 1) ++ " after 3 attempts"),
      none⟩

/-- Effects of `n` consecutive failures of the same module index, starting
from the given stored retry count. -/
def failureSeq (moduleIndex : Nat) : Nat → Nat → List ModuleFailureEffects
  | 0, _ => []
  | n + 1, rc =>
    let eff := moduleFailureHandler moduleIndex rc
    eff :: failureSeq moduleIndex n eff.newRetryCount

/-- A lesson skeleton inside a course outline. -/
structure LessonOutline where
  title : String
  description : Option String
deriving Repr, DecidableEq

/-- A module skeleton inside a course outline. -/
structure ModuleOutline where
  title : String
  description : Option String
  lessons : List LessonOutline
deriving Repr, DecidableEq

/-- A course outline, the parsed `outlineJson`. -/
structure CourseOutline where
  title : String
  description : Option String
  estimatedDuration : Option Nat
  modules : List ModuleOutline
deriving Repr, DecidableEq

/-- Result of the outline AI call as `generateOutline` sees it: a
structured error object, a course outline, or a thrown exception. -/
inductive OutlineAIResult where
  | errObj (message : Option String)
  | ok (o : CourseOutline)
  | thrown (msg : String)

/-- A call scheduled by the outline handler. -/
inductive OutlineSched where
  | moduleGen (idx : Nat)
deriving DecidableEq, Repr

/-- The ordered externally visible effects of one `generateOutline`
execution: capsule status updates (status, error message), job stage
updates, and scheduled calls. -/
structure OutlineEffects where
  statusUpdates : List (CapsuleStatus × Option String)
  jobStages : List String
  scheduled : List OutlineSched
deriving Repr, DecidableEq

/-- Model of the `generateOutline` handler body on a given AI outcome.  On
a structured error object the capsule is failed with
`message || "Content generation failed"` and nothing is scheduled; on a
valid outline the capsule moves to `generating_content` and module 0 is
scheduled (or, with zero modules, the run completes immediately); on a
thrown error the capsule is failed with the exception message. -/
def runOutlineHandler (r : OutlineAIResult) : OutlineEffects :=
  match r with
  | OutlineAIResult.errObj m =>
    ⟨[(CapsuleStatus.failed, some (jsStrOrDefault m "Content generation failed"))], [], []⟩
  | OutlineAIResult.ok o =>
    if 0 < o.modules.length then
      ⟨[(CapsuleStatus.generatingContent, none)], ["module_0"], [OutlineSched.moduleGen 0]⟩
    else
      ⟨[(CapsuleStatus.generatingContent, none), (CapsuleStatus.completed, none)],
        ["module_0", "completed"], []⟩
  | OutlineAIResult.thrown msg =>
    ⟨[(CapsuleStatus.failed, some msg)], [], []⟩

-- =============================================================================
-- Start handler (generateCapsuleContent), at mutation granularity
-- =============================================================================

/-- The capsule record fields the start handler reads and writes. -/
structure CapsuleRec where
  status : CapsuleStatus
  errorMessage : Option String
deriving DecidableEq, Repr

/-- The store as the start handler sees it: the capsule, the number of
generation job records for it, and the number of scheduled outline calls. -/
structure StartStore where
  capsule : Option CapsuleRec
  jobCount : Nat
  outlineScheduled : Nat
deriving DecidableEq, Repr

/-- The result object of `generateCapsuleContent`. -/
structure StartResult where
  success : Bool
  error : Option String
deriving DecidableEq, Repr

/-- Store after the `createGenerationJob` mutation commits. -/
def afterCreateJob (st : StartStore) : StartStore :=
  ⟨st.capsule, st.jobCount + 1, st.outlineScheduled⟩

/-- Store after the `updateCapsuleStatus` mutation to `generating_outline`
commits. -/
def afterStatusUpdate (st : StartStore) : StartStore :=
  ⟨st.capsule.map (fun c => ⟨CapsuleStatus.generatingOutline, c.errorMessage⟩),
    st.jobCount, st.outlineScheduled⟩

/-- Store after `generateOutline` is scheduled with zero delay. -/
def afterSchedule (st : StartStore) : StartStore :=
  ⟨st.capsule, st.jobCount, st.outlineScheduled + 1⟩

/-- The stores the start handler passes through on a startable capsule.
Each Convex mutation commits on its own, so every element of this trace is
an externally observable store state. -/
def startTrace (st : StartStore) : List StartStore :=
  [st, afterCreateJob st, afterStatusUpdate (afterCreateJob st),
    afterSchedule (afterStatusUpdate (afterCreateJob st))]

/-- Model of `generateCapsuleContent`: throw on a missing capsule,
soft-fail (returning `success: false` without touching the store) when the
status is neither `pending` nor `failed`, otherwise run the three start
mutations in order. -/
def generateCapsuleContentStart (st : StartStore) : Except String (StartResult × StartStore) :=
  match st.capsule with
  | none => Except.error "Capsule not found"
  | some c =>
    if c.status ≠ CapsuleStatus.pending ∧ c.status ≠ CapsuleStatus.failed then
      Except.ok (⟨false, some "Capsule is already being generated or completed"⟩, st)
    else
      Except.ok (⟨true, none⟩, afterSchedule (afterStatusUpdate (afterCreateJob st)))

-- =============================================================================
-- The capsule pipeline as a transition system over the durable store
-- =============================================================================

/-
Granularity: one transition is one complete execution of a scheduler-invoked
handler (`generateCapsuleContent` start, `generateOutline`,
`generateModuleContent`, `finalizeGeneration`), with its internal mutations
applied in order; the AI outcome of each handler run is a nondeterministic
parameter of the transition.  The serialized `outlineJson` round-trips
through `JSON.stringify`/`JSON.parse` unchanged and is modelled
structurally.  Capsule deletion is an out-of-scope admin operation and is
not a transition.
-/

/-- The generation job record. -/
structure JobRec where
  currentStage : String
  outlineGenerated : Bool
  outline : Option CourseOutline
  modulesGenerated : Nat
  totalModules : Nat
  currentModuleIndex : Nat
  retryCount : Nat
  lastError : Option String
  hasCompletedAt : Bool
deriving DecidableEq, Repr

/-- The record `createGenerationJob` inserts. -/
def freshJob : JobRec :=
  ⟨"outline", false, none, 0, 0, 0, 0, none, false⟩

/-- A persisted module row (with its lessons' orders), as inserted by
`saveGeneratedModule`. -/
structure StoreModule where
  order : Nat
  lessonOrders : List Nat
deriving DecidableEq, Repr

/-- A pending scheduler task. -/
inductive PTask where
  | outlineGen (jobId : Nat)
  | moduleGen (jobId : Nat) (moduleIndex : Nat) (outline : CourseOutline) (delayMs : Nat)
  | finalizeGen (jobId : Nat)
deriving DecidableEq, Repr

/-- The job a task belongs to. -/
def PTask.jobId : PTask → Nat
  | PTask.outlineGen j => j
  | PTask.moduleGen j _ _ _ => j
  | PTask.finalizeGen j => j

/-- The content the module-content AI call returns, reduced to what the
store records: how many lessons get persisted. -/
structure GenModuleContent where
  lessonCount : Nat
deriving DecidableEq, Repr

/-- The durable store for one capsule: its status and error, all of its
generation job records (keyed by a fresh id), the persisted modules, and
the pending scheduler tasks. -/
structure PState where
  capsuleStatus : CapsuleStatus
  capsuleError : Option String
  jobs : List (Nat × JobRec)
  nextJobId : Nat
  modules : List StoreModule
  tasks : List PTask
deriving DecidableEq, Repr

/-- First job record with the given id. -/
def findJob : List (Nat × JobRec) → Nat → Option JobRec
  | [], _ => none
  | (k, j) :: rest, jid => if k = jid then some j else findJob rest jid

/-- Patch the job record(s) with the given id. -/
def updateJob (f : JobRec → JobRec) : List (Nat × JobRec) → Nat → List (Nat × JobRec)
  | [], _ => []
  | (k, j) :: rest, jid =>
    if k = jid then (k, f j) :: updateJob f rest jid
    else (k, j) :: updateJob f rest jid

/-- The freshly created capsule: `pending`, nothing persisted. -/
def initialState : PState :=
  ⟨CapsuleStatus.pending, none, [], 0, [], []⟩

/-- Effect of the start handler: create a job, flip the capsule to
`generating_outline`, schedule the outline stage. -/
def startNext (s : PState) : PState :=
  ⟨CapsuleStatus.generatingOutline, s.capsuleError,
    s.jobs ++ [(s.nextJobId, freshJob)], s.nextJobId + 1, s.modules,
    s.tasks ++ [PTask.outlineGen s.nextJobId]⟩

/-- Effect of `generateOutline` when the AI returns a structured error
object: fail the capsule with the message (or the fallback), touch
nothing else, schedule nothing. -/
def outlineErrNext (s : PState) (pre post : List PTask) (m : Option String) : PState :=
  ⟨CapsuleStatus.failed, some (jsStrOrDefault m "Content generation failed"),
    s.jobs, s.nextJobId, s.modules, pre ++ post⟩

/-- Effect of `generateOutline` on a valid outline with at least one
module: capsule to `generating_content`, job to stage `module_0` with the
outline and the module total, module 0 scheduled. -/
def outlineOkPosNext (s : PState) (pre post : List PTask) (jid : Nat) (o : CourseOutline) :
    PState :=
  ⟨CapsuleStatus.generatingContent, s.capsuleError,
    updateJob (fun j =>
      { j with
        currentStage := "module_0"
        outlineGenerated := true
        outline := some o
        totalModules := o.modules.length }) s.jobs jid,
    s.nextJobId, s.modules, (pre ++ post) ++ [PTask.moduleGen jid 0 o 0]⟩

/-- Effect of `generateOutline` on a valid outline with zero modules: the
run completes immediately. -/
def outlineOkZeroNext (s : PState) (pre post : List PTask) (jid : Nat) (o : CourseOutline) :
    PState :=
  ⟨CapsuleStatus.completed, s.capsuleError,
    updateJob (fun j =>
      { j with
        currentStage := "completed"
        outlineGenerated := true
        outline := some o
        totalModules := o.modules.length
        hasCompletedAt := true }) s.jobs jid,
    s.nextJobId, s.modules, pre ++ post⟩

/-- Effect of `generateOutline` when the stage throws: fail the capsule
with the exception message, record it on the job. -/
def outlineFailNext (s : PState) (pre post : List PTask) (jid : Nat) (msg : String) : PState :=
  ⟨CapsuleStatus.failed, some msg,
    updateJob (fun j => { j with lastError := some msg }) s.jobs jid,
    s.nextJobId, s.modules, pre ++ post⟩

/-- The stringly-typed stage token for module `k`. -/
def stageNameFor (k : Nat) : String :=
  "module_" ++ toString k

/-- The job patch of a successful module step `i`. -/
def moduleOkUpd (i len : Nat) (j : JobRec) : JobRec :=
  { j with
    modulesGenerated := i + 1
    currentModuleIndex := i + 1
    currentStage := if len ≤ i + 1 then "finalizing" else stageNameFor (i + 1) }

/-- Effect of a successful `generateModuleContent` run at index `i`:
persist the module and its lessons as one mutation, advance the job, and
schedule the next module or the finalize stage. -/
def moduleOkNextState (s : PState) (pre post : List PTask) (jid i : Nat)
    (o : CourseOutline) (c : GenModuleContent) : PState :=
  ⟨s.capsuleStatus, s.capsuleError,
    updateJob (moduleOkUpd i o.modules.length) s.jobs jid,
    s.nextJobId,
    s.modules ++ [⟨i, List.range c.lessonCount⟩],
    (pre ++ post) ++
      [if o.modules.length ≤ i + 1 then PTask.finalizeGen jid
       else PTask.moduleGen jid (i + 1) o 0]⟩

/-- Effect of a failed `generateModuleContent` run whose incremented retry
count stays below 3: persist count and error, reschedule the same index
after `2 ^ retryCount` seconds. -/
def moduleFailRetryNext (s : PState) (pre post : List PTask) (jid i : Nat)
    (o : CourseOutline) (msg : String) (rc : Nat) : PState :=
  ⟨s.capsuleStatus, s.capsuleError,
    updateJob (fun j => { j with retryCount := rc + 1, lastError := some msg }) s.jobs jid,
    s.nextJobId, s.modules,
    (pre ++ post) ++ [PTask.moduleGen jid i o (2 ^ (rc + 1) * 1000)]⟩

/-- Effect of a failed `generateModuleContent` run at the retry cap: fail
the capsule with the module-specific message, record the error, schedule
nothing. -/
def moduleFailFatalNext (s : PState) (pre post : List PTask) (jid i : Nat) (msg : String) :
    PState :=
  ⟨CapsuleStatus.failed,
    some ("Failed to generate module " ++ toString (i + 1) ++ " after 3 attempts"),
    updateJob (fun j => { j with lastError := some msg }) s.jobs jid,
    s.nextJobId, s.modules, pre ++ post⟩

/-- Effect of a successful `finalizeGeneration` run. -/
def finalizeOkNext (s : PState) (pre post : List PTask) (jid : Nat) : PState :=
  ⟨CapsuleStatus.completed, s.capsuleError,
    updateJob (fun j => { j with currentStage := "completed", hasCompletedAt := true })
      s.jobs jid,
    s.nextJobId, s.modules, pre ++ post⟩

/-- Effect of a failed `finalizeGeneration` run. -/
def finalizeFailNext (s : PState) (pre post : List PTask) (_jid : Nat) : PState :=
  ⟨CapsuleStatus.failed, some "Failed to finalize generation",
    s.jobs, s.nextJobId, s.modules, pre ++ post⟩

/-- One transition of the pipeline: one handler execution with a
nondeterministic AI outcome.  Module-stage success requires the index to
exist in the outline (otherwise the stage throws and takes a failure
transition); the failure transitions read the stored job record for the
retry decision. -/
inductive Step : PState → PState → Prop where
  | start (s : PState)
      (h : s.capsuleStatus = CapsuleStatus.pending ∨ s.capsuleStatus = CapsuleStatus.failed) :
      Step s (startNext s)
  | outlineErr (s : PState) (pre post : List PTask) (jid : Nat) (m : Option String)
      (h : s.tasks = pre ++ PTask.outlineGen jid :: post) :
      Step s (outlineErrNext s pre post m)
  | outlineOkPos (s : PState) (pre post : List PTask) (jid : Nat) (o : CourseOutline)
      (h : s.tasks = pre ++ PTask.outlineGen jid :: post)
      (hpos : 0 < o.modules.length) :
      Step s (outlineOkPosNext s pre post jid o)
  | outlineOkZero (s : PState) (pre post : List PTask) (jid : Nat) (o : CourseOutline)
      (h : s.tasks = pre ++ PTask.outlineGen jid :: post)
      (hzero : o.modules.length = 0) :
      Step s (outlineOkZeroNext s pre post jid o)
  | outlineFail (s : PState) (pre post : List PTask) (jid : Nat) (msg : String)
      (h : s.tasks = pre ++ PTask.outlineGen jid :: post) :
      Step s (outlineFailNext s pre post jid msg)
  | moduleOk (s : PState) (pre post : List PTask) (jid i : Nat) (o : CourseOutline)
      (d : Nat) (c : GenModuleContent)
      (h : s.tasks = pre ++ PTask.moduleGen jid i o d :: post)
      (hi : i < o.modules.length) :
      Step s (moduleOkNextState s pre post jid i o c)
  | moduleFailRetry (s : PState) (pre post : List PTask) (jid i : Nat) (o : CourseOutline)
      (d : Nat) (msg : String) (j : JobRec)
      (h : s.tasks = pre ++ PTask.moduleGen jid i o d :: post)
      (hj : findJob s.jobs jid = some j)
      (hrc : j.retryCount + 1 < 3) :
      Step s (moduleFailRetryNext s pre post jid i o msg j.retryCount)
  | moduleFailFatal (s : PState) (pre post : List PTask) (jid i : Nat) (o : CourseOutline)
      (d : Nat) (msg : String) (j : JobRec)
      (h : s.tasks = pre ++ PTask.moduleGen jid i o d :: post)
      (hj : findJob s.jobs jid = some j)
      (hrc : ¬ j.retryCount + 1 < 3) :
      Step s (moduleFailFatalNext s pre post jid i msg)
  | finalizeOk (s : PState) (pre post : List PTask) (jid : Nat)
      (h : s.tasks = pre ++ PTask.finalizeGen jid :: post) :
      Step s (finalizeOkNext s pre post jid)
  | finalizeFail (s : PState) (pre post : List PTask) (jid : Nat)
      (h : s.tasks = pre ++ PTask.finalizeGen jid :: post) :
      Step s (finalizeFailNext s pre post jid)

/-- States reachable from the freshly created capsule. -/
inductive Reach : PState → Prop where
  | init : Reach initialState
  | next {s s' : PState} : Reach s → Step s s' → Reach s'

/-- The inductive invariant of the pipeline store. -/
structure Inv (s : PState) : Prop where
  jobsBound : ∀ p ∈ s.jobs, Prod.fst p < s.nextJobId
  jobsNodup : (s.jobs.map Prod.fst).Nodup
  tasksUnique : (s.tasks.map PTask.jobId).Nodup
  outlineFresh : ∀ jid, PTask.outlineGen jid ∈ s.tasks → findJob s.jobs jid = some freshJob
  moduleTask : ∀ jid i o d, PTask.moduleGen jid i o d ∈ s.tasks →
    ∃ j, findJob s.jobs jid = some j ∧ j.totalModules = o.modules.length ∧
      j.modulesGenerated = i ∧ i < o.modules.length
  finalizeTask : ∀ jid, PTask.finalizeGen jid ∈ s.tasks →
    ∃ j, findJob s.jobs jid = some j ∧ j.modulesGenerated = j.totalModules
  mgBound : ∀ p ∈ s.jobs, (Prod.snd p : JobRec).modulesGenerated ≤ (Prod.snd p).totalModules
  completedStage : ∀ p ∈ s.jobs, (Prod.snd p : JobRec).currentStage = "completed" →
    (Prod.snd p).modulesGenerated = (Prod.snd p).totalModules

-- =============================================================================
-- Concrete values used by witnesses and counterexamples
-- =============================================================================

/-- A schema that rejects every value: a permanently invalid target. -/
def rejectAllSchema : JsonSchema := fun _ => Except.error "Required field is missing"

/-- A zod-style object schema requiring a property `a` of any shape: its
`parse` returns the object restricted to the known key `a` (zod strips
unknown keys), and throws on a missing `a` or a non-object. -/
def requireFieldA : JsonSchema := fun j =>
  match j with
  | Json.obj fs =>
    match fs.lookup "a" with
    | some v => Except.ok (Json.obj [("a", v)])
    | none => Except.error "Required property a is missing"
  | _ => Except.error "Expected an object"

/-- The valid JSON document `{"a":[]}`. -/
def emptyArrayFieldDoc : String := "\x7b\"a\":[]\x7d"

/-- The valid JSON document `{"a":1}`. -/
def intFieldDoc : String := "\x7b\"a\":1\x7d"

/-- The concrete invalid drag-drop practice question of the claim: two
targets, one item, `target2` accepting nothing. -/
def badDragDropQuestion : Json :=
  Json.obj [("type", Json.str "dragDrop"),
    ("instruction", Json.str "Match the concepts"),
    ("items", Json.arr [Json.obj [("id", Json.str "item1"), ("content", Json.str "Concept 1")]]),
    ("targets", Json.arr [
      Json.obj [("id", Json.str "target1"), ("label", Json.str "D1"),
        ("acceptsItems", Json.arr [Json.str "item1"])],
      Json.obj [("id", Json.str "target2"), ("label", Json.str "D2"),
        ("acceptsItems", Json.arr [])]])]

/-- A lesson content payload containing the invalid drag-drop question. -/
def c2LessonContent : Json :=
  Json.obj [("sections", Json.arr []),
    ("practiceQuestions", Json.arr [badDragDropQuestion])]

/-- A module-content generator response carrying the invalid drag-drop
question inside its single lesson. -/
def c2ModuleResponse : Json :=
  Json.obj [("title", Json.str "Module 1"),
    ("introduction", Json.str "Intro"),
    ("learningObjectives", Json.arr [Json.str "Objective 1"]),
    ("lessons", Json.arr [Json.obj [("title", Json.str "Lesson 1"),
      ("content", c2LessonContent)]]),
    ("moduleSummary", Json.str "Summary")]

/-- The raw response text of the module-content generator for the
counterexample: the serialization of `c2ModuleResponse`. -/
def c2ResponseText : String := stringifyVal c2ModuleResponse 0

/-- A well-formed valid module response used by the witness. -/
def c2GoodResponse : Json :=
  Json.obj [("title", Json.str "Module 2"),
    ("lessons", Json.arr [Json.obj [("title", Json.str "Lesson A"),
      ("content", Json.obj [("sections", Json.arr [])])]])]

/-- The serialization of `c2GoodResponse`. -/
def c2GoodText : String := stringifyVal c2GoodResponse 0

/-- The rows actually persisted for the counterexample response. -/
def c2Saved : SavedModule :=
  ⟨⟨"Module 1", none, some "Intro", some ["Objective 1"], some "Summary", 0⟩,
    [⟨"Lesson 1", none, 0, "mixed", c2LessonContent⟩]⟩

/-- The rows persisted for the witness response. -/
def c2GoodSaved : SavedModule :=
  ⟨⟨"Module 2", none, none, none, none, 1⟩,
    [⟨"Lesson A", none, 0, "mixed", Json.obj [("sections", Json.arr [])]⟩]⟩

/-- The single lesson object of the witness response. -/
def c2GoodLesson : Json :=
  Json.obj [("title", Json.str "Lesson A"),
    ("content", Json.obj [("sections", Json.arr [])])]

/-- A schema-conforming MCQ quiz item whose answer is among its options. -/
def mcqGoodItem : Json :=
  Json.obj [("type", Json.str "mcq"), ("question", Json.str "Which one?"),
    ("options", Json.arr [Json.str "A", Json.str "B", Json.str "C", Json.str "D"]),
    ("correctAnswer", Json.str "B"), ("explanation", Json.str "Because B")]

/-- An MCQ quiz item with four options whose `correctAnswer` is not among
them. -/
def mcqBadAnswerItem : Json :=
  Json.obj [("type", Json.str "mcq"), ("question", Json.str "Which one?"),
    ("options", Json.arr [Json.str "A", Json.str "B", Json.str "C", Json.str "D"]),
    ("correctAnswer", Json.str "E"), ("explanation", Json.str "Because E")]

/-- The store of a freshly created (pending) capsule as seen by the start
handler. -/
def c7Store : StartStore := ⟨some ⟨CapsuleStatus.pending, none⟩, 0, 0⟩

-- =============================================================================
-- The concrete retry trace of claim C5
-- =============================================================================

/-- A two-module outline used by the C5 trace. -/
def c5Outline : CourseOutline :=
  ⟨"Course T", some "About T", some 30,
    [⟨"M1", none, [⟨"L1", none⟩]⟩, ⟨"M2", none, [⟨"L2", none⟩]⟩]⟩

/-- A one-lesson module content payload used by the C5 trace. -/
def c5Content : GenModuleContent := ⟨1⟩

/-- After the start handler. -/
def c5s1 : PState := startNext initialState

/-- After the outline stage succeeds with two modules. -/
def c5s2 : PState := outlineOkPosNext c5s1 [] [] 0 c5Outline

/-- After module 0 is generated and persisted. -/
def c5s3 : PState := moduleOkNextState c5s2 [] [] 0 0 c5Outline c5Content

/-- The job record after module 0 succeeded. -/
def c5job3 : JobRec := ⟨"module_1", true, some c5Outline, 1, 2, 1, 0, none, false⟩

/-- After the first failure of module 1 (retry scheduled at 2s). -/
def c5s4 : PState := moduleFailRetryNext c5s3 [] [] 0 1 c5Outline "AI API error" 0

/-- The job record after the first failure. -/
def c5job4 : JobRec := ⟨"module_1", true, some c5Outline, 1, 2, 1, 1, some "AI API error", false⟩

/-- After the second failure of module 1 (retry scheduled at 4s). -/
def c5s5 : PState := moduleFailRetryNext c5s4 [] [] 0 1 c5Outline "AI API error" 1

/-- The job record after the second failure. -/
def c5job5 : JobRec := ⟨"module_1", true, some c5Outline, 1, 2, 1, 2, some "AI API error", false⟩

/-- After the third failure of module 1: the capsule is failed. -/
def c5s6 : PState := moduleFailFatalNext c5s5 [] [] 0 1 "AI API error"

/-- After the user retries the failed capsule (a second job is created). -/
def c5s7 : PState := startNext c5s6

/-- After the second run's outline stage succeeds with the same outline. -/
def c5s8 : PState := outlineOkPosNext c5s7 [] [] 1 c5Outline

/-- After the second run regenerates module 0: the store now holds two
modules with order 0. -/
def c5s9 : PState := moduleOkNextState c5s8 [] [] 1 0 c5Outline c5Content

-- =============================================================================
-- Association-list lemmas for the pipeline store
-- =============================================================================

theorem findJob_append {l l' : List (Nat × JobRec)} {jid : Nat} :
    findJob (l ++ l') jid =
      (match findJob l jid with
        | some j => some j
        | none => findJob l' jid) := by
  induction l with
  | nil => simp [findJob]
  | cons p rest ih =>
    obtain ⟨k, j⟩ := p
    by_cases hk : k = jid <;> simp [findJob, hk, ih]

theorem findJob_update_self (f : JobRec → JobRec) (l : List (Nat × JobRec)) (jid : Nat) :
    findJob (updateJob f l jid) jid = (findJob l jid).map f := by
  induction l with
  | nil => simp [findJob, updateJob]
  | cons p rest ih =>
    obtain ⟨k, j⟩ := p
    by_cases hk : k = jid <;> simp [findJob, updateJob, hk, ih]

theorem findJob_update_ne (f : JobRec → JobRec) (l : List (Nat × JobRec)) {jid jid' : Nat}
    (h : jid' ≠ jid) :
    findJob (updateJob f l jid) jid' = findJob l jid' := by
  induction l with
  | nil => simp [findJob, updateJob]
  | cons p rest ih =>
    obtain ⟨k, j⟩ := p
    by_cases hk : k = jid <;> by_cases hk' : k = jid' <;>
      simp_all [findJob, updateJob]

theorem findJob_mem {l : List (Nat × JobRec)} {jid : Nat} {j : JobRec}
    (h : findJob l jid = some j) : (jid, j) ∈ l := by
  induction l with
  | nil => simp [findJob] at h
  | cons p rest ih =>
    obtain ⟨k, j'⟩ := p
    by_cases hk : k = jid
    · subst hk
      simp [findJob] at h
      simp [h]
    · simp [findJob, hk] at h
      simp [ih h]

theorem findJob_none {l : List (Nat × JobRec)} {n : Nat}
    (h : ∀ p ∈ l, Prod.fst p < n) : findJob l n = none := by
  induction l with
  | nil => simp [findJob]
  | cons p rest ih =>
    obtain ⟨k, j⟩ := p
    have hk : k < n := h (k, j) (by simp)
    have : k ≠ n := Nat.ne_of_lt hk
    simp [findJob, this]
    exact ih (fun q hq => h q (by simp [hq]))

theorem mem_updateJob {f : JobRec → JobRec} {l : List (Nat × JobRec)} {jid : Nat}
    {p : Nat × JobRec} (h : p ∈ updateJob f l jid) :
    p ∈ l ∨ ∃ j, (Prod.fst p, j) ∈ l ∧ Prod.fst p = jid ∧ Prod.snd p = f j := by
  induction l with
  | nil => simp [updateJob] at h
  | cons q rest ih =>
    obtain ⟨k, j⟩ := q
    by_cases hk : k = jid
    · subst hk
      simp [updateJob] at h
      rcases h with h | h
      · subst h
        exact Or.inr ⟨j, by simp⟩
      · rcases ih h with h' | ⟨j', hj', hp, hv⟩
        · exact Or.inl (by simp [h'])
        · exact Or.inr ⟨j', by simp [hj'], hp, hv⟩
    · simp [updateJob, hk] at h
      rcases h with h | h
      · exact Or.inl (by simp [h])
      · rcases ih h with h' | ⟨j', hj', hp, hv⟩
        · exact Or.inl (by simp [h'])
        · exact Or.inr ⟨j', by simp [hj'], hp, hv⟩

theorem updateJob_map_fst (f : JobRec → JobRec) (l : List (Nat × JobRec)) (jid : Nat) :
    (updateJob f l jid).map Prod.fst = l.map Prod.fst := by
  induction l with
  | nil => simp [updateJob]
  | cons p rest ih =>
    obtain ⟨k, j⟩ := p
    by_cases hk : k = jid <;> simp [updateJob, hk, ih]

theorem findJob_of_mem_nodup {l : List (Nat × JobRec)}
    (hnd : (l.map Prod.fst).Nodup) {jid : Nat} {j : JobRec} (h : (jid, j) ∈ l) :
    findJob l jid = some j := by
  induction l with
  | nil => simp at h
  | cons p rest ih =>
    obtain ⟨k, j'⟩ := p
    simp only [List.map_cons, List.nodup_cons] at hnd
    rcases List.mem_cons.mp h with h1 | h1
    · cases h1
      simp [findJob]
    · have hk : k ≠ jid := by
        intro hk
        subst hk
        exact hnd.1 (List.mem_map_of_mem Prod.fst h1)
      simp [findJob, hk]
      exact ih hnd.2 h1

/-- Every pending task points at an existing job, so its id is below the
id bound. -/
theorem task_jobId_lt {s : PState} (inv : Inv s) :
    ∀ t ∈ s.tasks, PTask.jobId t < s.nextJobId := by
  intro t ht
  cases t with
  | outlineGen jid =>
    exact inv.jobsBound _ (findJob_mem (inv.outlineFresh jid ht))
  | moduleGen jid i o d =>
    obtain ⟨j, hj, _⟩ := inv.moduleTask jid i o d ht
    exact inv.jobsBound _ (findJob_mem hj)
  | finalizeGen jid =>
    obtain ⟨j, hj, _⟩ := inv.finalizeTask jid ht
    exact inv.jobsBound _ (findJob_mem hj)

theorem tasksUnique_removed {pre post : List PTask} {x : PTask}
    (h : (((pre ++ x :: post).map PTask.jobId)).Nodup) :
    ((pre ++ post).map PTask.jobId).Nodup ∧
      PTask.jobId x ∉ (pre ++ post).map PTask.jobId := by
  rw [List.map_append, List.map_cons, List.nodup_middle, List.nodup_cons] at h
  exact ⟨by simpa [List.map_append] using h.2, by simpa [List.map_append] using h.1⟩

theorem tasksUnique_append_new {rest : List PTask} {x : PTask}
    (h1 : (rest.map PTask.jobId).Nodup) (h2 : PTask.jobId x ∉ rest.map PTask.jobId) :
    ((rest ++ [x]).map PTask.jobId).Nodup := by
  rw [List.map_append]
  refine List.Nodup.append h1 (by simp) ?_
  intro a ha hb
  simp at hb
  exact h2 (hb ▸ ha)

theorem survivorsNe {pre post : List PTask} {x : PTask}
    (hnotin : PTask.jobId x ∉ (pre ++ post).map PTask.jobId) :
    ∀ t ∈ pre ++ post, PTask.jobId t ≠ PTask.jobId x := by
  intro t ht he
  exact hnotin (he ▸ List.mem_map_of_mem PTask.jobId ht)

theorem stageNameFor_ne_completed (k : Nat) : stageNameFor k ≠ "completed" := by
  intro h
  have h2 : (stageNameFor k).data = "completed".data := congrArg String.data h
  simp only [stageNameFor] at h2
  have h3 : ("module_".data ++ (toString k).data) = "completed".data := h2
  simp at h3

/-- The invariant holds in the initial state. -/
theorem invInit : Inv initialState := by
  refine ⟨?_, ?_, ?_, ?_, ?_, ?_, ?_, ?_⟩ <;> simp [initialState, findJob]

/-- Task-list facts shared by every handler transition: the surviving
tasks are duplicate-free, were already pending, and belong to other jobs
than the consumed task. -/
theorem invTasksRemoved {s : PState} (inv : Inv s) {pre post : List PTask} {x : PTask}
    (h : s.tasks = pre ++ x :: post) :
    ((pre ++ post).map PTask.jobId).Nodup ∧
      (∀ t ∈ pre ++ post, t ∈ s.tasks) ∧
      (∀ t ∈ pre ++ post, PTask.jobId t ≠ PTask.jobId x) := by
  have hnd := inv.tasksUnique
  rw [h] at hnd
  obtain ⟨h1, h2⟩ := tasksUnique_removed hnd
  refine ⟨h1, ?_, survivorsNe h2⟩
  intro t ht
  rw [h]
  rcases List.mem_append.mp ht with h3 | h3
  · exact List.mem_append.mpr (Or.inl h3)
  · exact List.mem_append.mpr (Or.inr (List.mem_cons_of_mem _ h3))

theorem invStart {s : PState} (inv : Inv s) : Inv (startNext s) := by
  have hfresh : s.nextJobId ∉ (s.jobs.map Prod.fst) := by
    intro hmem
    obtain ⟨p, hp, hfst⟩ := List.mem_map.mp hmem
    exact Nat.lt_irrefl _ (hfst ▸ inv.jobsBound p hp)
  have hfreshT : PTask.jobId (PTask.outlineGen s.nextJobId) ∉ s.tasks.map PTask.jobId := by
    intro hmem
    obtain ⟨t, ht, hid⟩ := List.mem_map.mp hmem
    exact Nat.lt_irrefl _ (hid ▸ task_jobId_lt inv t ht)
  have hnone : findJob s.jobs s.nextJobId = none := findJob_none inv.jobsBound
  refine ⟨?_, ?_, ?_, ?_, ?_, ?_, ?_, ?_⟩
  · intro p hp
    simp only [startNext] at hp ⊢
    rcases List.mem_append.mp hp with h1 | h1
    · exact Nat.lt_succ_of_lt (inv.jobsBound p h1)
    · simp at h1
      subst h1
      exact Nat.lt_succ_self _
  · simp only [startNext, List.map_append]
    refine List.Nodup.append inv.jobsNodup (by simp) ?_
    intro a ha hb
    simp at hb
    exact hfresh (hb ▸ ha)
  · exact tasksUnique_append_new inv.tasksUnique hfreshT
  · intro jid ht
    simp only [startNext] at ht ⊢
    rcases List.mem_append.mp ht with h1 | h1
    · have hold := inv.outlineFresh jid h1
      rw [findJob_append, hold]
    · simp at h1
      subst h1
      rw [findJob_append, hnone]
      simp [findJob]
  · intro jid i o d ht
    simp only [startNext] at ht ⊢
    rcases List.mem_append.mp ht with h1 | h1
    · obtain ⟨j, hj, hrest⟩ := inv.moduleTask jid i o d h1
      exact ⟨j, by rw [findJob_append, hj], hrest⟩
    · simp at h1
  · intro jid ht
    simp only [startNext] at ht ⊢
    rcases List.mem_append.mp ht with h1 | h1
    · obtain ⟨j, hj, hrest⟩ := inv.finalizeTask jid h1
      exact ⟨j, by rw [findJob_append, hj], hrest⟩
    · simp at h1
  · intro p hp
    simp only [startNext] at hp
    rcases List.mem_append.mp hp with h1 | h1
    · exact inv.mgBound p h1
    · simp at h1
      subst h1
      simp [freshJob]
  · intro p hp hstage
    simp only [startNext] at hp
    rcases List.mem_append.mp hp with h1 | h1
    · exact inv.completedStage p h1 hstage
    · simp at h1
      subst h1
      simp [freshJob] at hstage

theorem invOutlineErr {s : PState} (inv : Inv s) {pre post : List PTask} {jid0 : Nat}
    {m : Option String} (h : s.tasks = pre ++ PTask.outlineGen jid0 :: post) :
    Inv (outlineErrNext s pre post m) := by
  obtain ⟨hnd, hmem, _⟩ := invTasksRemoved inv h
  refine ⟨?_, ?_, ?_, ?_, ?_, ?_, ?_, ?_⟩
  · exact fun p hp => inv.jobsBound p hp
  · exact inv.jobsNodup
  · exact hnd
  · exact fun jid ht => inv.outlineFresh jid (hmem _ ht)
  · exact fun jid i o d ht => inv.moduleTask jid i o d (hmem _ ht)
  · exact fun jid ht => inv.finalizeTask jid (hmem _ ht)
  · exact fun p hp => inv.mgBound p hp
  · exact fun p hp hstage => inv.completedStage p hp hstage

theorem jobsBoundUpdate {s : PState} (inv : Inv s) (f : JobRec → JobRec) (jid0 : Nat) :
    ∀ p ∈ updateJob f s.jobs jid0, Prod.fst p < s.nextJobId := by
  intro p hp
  rcases mem_updateJob hp with h1 | ⟨j, hj, _, _⟩
  · exact inv.jobsBound p h1
  · exact inv.jobsBound (Prod.fst p, j) hj

theorem jobsNodupUpdate {s : PState} (inv : Inv s) (f : JobRec → JobRec) (jid0 : Nat) :
    ((updateJob f s.jobs jid0).map Prod.fst).Nodup := by
  rw [updateJob_map_fst]
  exact inv.jobsNodup

/-- Surviving pending tasks keep their invariant clauses across a job
update at the consumed task's job id. -/
theorem survivorsFacts {s : PState} (inv : Inv s) {pre post : List PTask} {x : PTask}
    (h : s.tasks = pre ++ x :: post) (f : JobRec → JobRec) :
    (∀ jid, PTask.outlineGen jid ∈ pre ++ post →
      findJob (updateJob f s.jobs (PTask.jobId x)) jid = some freshJob) ∧
    (∀ jid i o d, PTask.moduleGen jid i o d ∈ pre ++ post →
      ∃ j, findJob (updateJob f s.jobs (PTask.jobId x)) jid = some j ∧
        j.totalModules = o.modules.length ∧ j.modulesGenerated = i ∧ i < o.modules.length) ∧
    (∀ jid, PTask.finalizeGen jid ∈ pre ++ post →
      ∃ j, findJob (updateJob f s.jobs (PTask.jobId x)) jid = some j ∧
        j.modulesGenerated = j.totalModules) := by
  obtain ⟨_, hmem, hne⟩ := invTasksRemoved inv h
  refine ⟨?_, ?_, ?_⟩
  · intro jid ht
    have hid : jid ≠ PTask.jobId x := hne _ ht
    rw [findJob_update_ne f s.jobs hid]
    exact inv.outlineFresh jid (hmem _ ht)
  · intro jid i o d ht
    have hid : jid ≠ PTask.jobId x := hne _ ht
    obtain ⟨j, hj, hrest⟩ := inv.moduleTask jid i o d (hmem _ ht)
    exact ⟨j, by rw [findJob_update_ne f s.jobs hid]; exact hj, hrest⟩
  · intro jid ht
    have hid : jid ≠ PTask.jobId x := hne _ ht
    obtain ⟨j, hj, hrest⟩ := inv.finalizeTask jid (hmem _ ht)
    exact ⟨j, by rw [findJob_update_ne f s.jobs hid]; exact hj, hrest⟩

/-- Job updates that change neither progress counters nor the stage keep
the progress invariants. -/
theorem mgStagePreserved {s : PState} (inv : Inv s) (f : JobRec → JobRec) (jid0 : Nat)
    (hf : ∀ j, (f j).modulesGenerated = j.modulesGenerated ∧
      (f j).totalModules = j.totalModules ∧ (f j).currentStage = j.currentStage) :
    (∀ p ∈ updateJob f s.jobs jid0,
      (Prod.snd p).modulesGenerated ≤ (Prod.snd p).totalModules) ∧
    (∀ p ∈ updateJob f s.jobs jid0, (Prod.snd p).currentStage = "completed" →
      (Prod.snd p).modulesGenerated = (Prod.snd p).totalModules) := by
  constructor
  · intro p hp
    rcases mem_updateJob hp with h1 | ⟨j, hj, _, hv⟩
    · exact inv.mgBound p h1
    · rw [hv, (hf j).1, (hf j).2.1]
      exact inv.mgBound (Prod.fst p, j) hj
  · intro p hp hstage
    rcases mem_updateJob hp with h1 | ⟨j, hj, _, hv⟩
    · exact inv.completedStage p h1 hstage
    · rw [hv, (hf j).1, (hf j).2.1]
      rw [hv, (hf j).2.2] at hstage
      exact inv.completedStage (Prod.fst p, j) hj hstage

theorem invOutlineFail {s : PState} (inv : Inv s) {pre post : List PTask} {jid0 : Nat}
    {msg : String} (h : s.tasks = pre ++ PTask.outlineGen jid0 :: post) :
    Inv (outlineFailNext s pre post jid0 msg) := by
  obtain ⟨hnd, _, _⟩ := invTasksRemoved inv h
  obtain ⟨hof, hmt, hft⟩ := survivorsFacts inv h (fun j => { j with lastError := some msg })
  obtain ⟨hmg, hcs⟩ := mgStagePreserved inv (fun j => { j with lastError := some msg }) jid0
    (fun j => ⟨rfl, rfl, rfl⟩)
  exact ⟨jobsBoundUpdate inv _ jid0, jobsNodupUpdate inv _ jid0, hnd, hof, hmt, hft, hmg, hcs⟩

theorem invFinalizeFail {s : PState} (inv : Inv s) {pre post : List PTask} {jid0 : Nat}
    (h : s.tasks = pre ++ PTask.finalizeGen jid0 :: post) :
    Inv (finalizeFailNext s pre post jid0) := by
  obtain ⟨hnd, hmem, _⟩ := invTasksRemoved inv h
  exact ⟨fun p hp => inv.jobsBound p hp, inv.jobsNodup, hnd,
    fun jid ht => inv.outlineFresh jid (hmem _ ht),
    fun jid i o d ht => inv.moduleTask jid i o d (hmem _ ht),
    fun jid ht => inv.finalizeTask jid (hmem _ ht),
    fun p hp => inv.mgBound p hp,
    fun p hp hstage => inv.completedStage p hp hstage⟩

theorem invModuleFailFatal {s : PState} (inv : Inv s) {pre post : List PTask}
    {jid0 i : Nat} {o : CourseOutline} {d : Nat} {msg : String}
    (h : s.tasks = pre ++ PTask.moduleGen jid0 i o d :: post) :
    Inv (moduleFailFatalNext s pre post jid0 i msg) := by
  obtain ⟨hnd, _, _⟩ := invTasksRemoved inv h
  obtain ⟨hof, hmt, hft⟩ := survivorsFacts inv h (fun j => { j with lastError := some msg })
  obtain ⟨hmg, hcs⟩ := mgStagePreserved inv (fun j => { j with lastError := some msg }) jid0
    (fun j => ⟨rfl, rfl, rfl⟩)
  exact ⟨jobsBoundUpdate inv _ jid0, jobsNodupUpdate inv _ jid0, hnd, hof, hmt, hft, hmg, hcs⟩

theorem invModuleFailRetry {s : PState} (inv : Inv s) {pre post : List PTask}
    {jid0 i : Nat} {o : CourseOutline} {d : Nat} {msg : String} {rc : Nat}
    (h : s.tasks = pre ++ PTask.moduleGen jid0 i o d :: post) :
    Inv (moduleFailRetryNext s pre post jid0 i o msg rc) := by
  obtain ⟨hnd, hmemS, hneS⟩ := invTasksRemoved inv h
  have hx : PTask.jobId (PTask.moduleGen jid0 i o d) = jid0 := rfl
  obtain ⟨hof, hmt, hft⟩ :=
    survivorsFacts inv h (fun j => { j with retryCount := rc + 1, lastError := some msg })
  obtain ⟨hmg, hcs⟩ :=
    mgStagePreserved inv (fun j => { j with retryCount := rc + 1, lastError := some msg }) jid0
      (fun j => ⟨rfl, rfl, rfl⟩)
  have hxmem : PTask.moduleGen jid0 i o d ∈ s.tasks := by
    rw [h]
    exact List.mem_append.mpr (Or.inr (List.mem_cons_self _ _))
  obtain ⟨j0, hj0, hj0tm, hj0mg, hj0lt⟩ := inv.moduleTask jid0 i o d hxmem
  have hnewTask :
      ∃ j, findJob (updateJob (fun j => { j with retryCount := rc + 1, lastError := some msg })
          s.jobs jid0) jid0 = some j ∧
        j.totalModules = o.modules.length ∧ j.modulesGenerated = i ∧ i < o.modules.length := by
    refine ⟨{ j0 with retryCount := rc + 1, lastError := some msg }, ?_, hj0tm, hj0mg, hj0lt⟩
    rw [findJob_update_self, hj0]
    rfl
  refine ⟨jobsBoundUpdate inv _ jid0, jobsNodupUpdate inv _ jid0, ?_, ?_, ?_, ?_, hmg, hcs⟩
  · refine tasksUnique_append_new hnd ?_
    intro hmemId
    obtain ⟨t, ht, hid⟩ := List.mem_map.mp hmemId
    exact hneS t ht hid
  · intro jid ht
    simp only [moduleFailRetryNext] at ht
    rcases List.mem_append.mp ht with h1 | h1
    · exact hof jid h1
    · simp at h1
  · intro jid i' o' d' ht
    simp only [moduleFailRetryNext] at ht
    rcases List.mem_append.mp ht with h1 | h1
    · exact hmt jid i' o' d' h1
    · simp at h1
      obtain ⟨he1, he2, he3, _⟩ := h1
      subst he1
      subst he2
      subst he3
      exact hnewTask
  · intro jid ht
    simp only [moduleFailRetryNext] at ht
    rcases List.mem_append.mp ht with h1 | h1
    · exact hft jid h1
    · simp at h1

theorem invOutlineOkPos {s : PState} (inv : Inv s) {pre post : List PTask} {jid0 : Nat}
    {o : CourseOutline} (h : s.tasks = pre ++ PTask.outlineGen jid0 :: post)
    (hpos : 0 < o.modules.length) :
    Inv (outlineOkPosNext s pre post jid0 o) := by
  classical
  set f : JobRec → JobRec := fun j =>
    { j with
      currentStage := "module_0"
      outlineGenerated := true
      outline := some o
      totalModules := o.modules.length } with hf
  obtain ⟨hnd, hmemS, hneS⟩ := invTasksRemoved inv h
  obtain ⟨hof, hmt, hft⟩ := survivorsFacts inv h f
  have hxmem : PTask.outlineGen jid0 ∈ s.tasks := by
    rw [h]
    exact List.mem_append.mpr (Or.inr (List.mem_cons_self _ _))
  have hfreshj : findJob s.jobs jid0 = some freshJob := inv.outlineFresh jid0 hxmem
  refine ⟨jobsBoundUpdate inv f jid0, jobsNodupUpdate inv f jid0, ?_, ?_, ?_, ?_, ?_, ?_⟩
  · refine tasksUnique_append_new hnd ?_
    intro hmemId
    obtain ⟨t, ht, hid⟩ := List.mem_map.mp hmemId
    exact hneS t ht hid
  · intro jid ht
    simp only [outlineOkPosNext] at ht
    rcases List.mem_append.mp ht with h1 | h1
    · exact hof jid h1
    · simp at h1
  · intro jid i' o' d' ht
    have hnewTask : ∃ j, findJob (updateJob f s.jobs jid0) jid0 = some j ∧
        j.totalModules = o.modules.length ∧ j.modulesGenerated = 0 ∧ 0 < o.modules.length := by
      refine ⟨f freshJob, ?_, rfl, rfl, hpos⟩
      rw [findJob_update_self, hfreshj]
      rfl
    simp only [outlineOkPosNext] at ht
    rcases List.mem_append.mp ht with h1 | h1
    · exact hmt jid i' o' d' h1
    · rw [List.mem_singleton] at h1
      obtain ⟨he1, he2, he3, he4⟩ := PTask.moduleGen.inj h1
      subst he1
      subst he2
      subst he3
      subst he4
      exact hnewTask
  · intro jid ht
    simp only [outlineOkPosNext] at ht
    rcases List.mem_append.mp ht with h1 | h1
    · exact hft jid h1
    · simp at h1
  · intro p hp
    simp only [outlineOkPosNext] at hp
    rcases mem_updateJob hp with h1 | ⟨j, hj, hpf, hv⟩
    · exact inv.mgBound p h1
    · have : findJob s.jobs (Prod.fst p) = some j := findJob_of_mem_nodup inv.jobsNodup hj
      rw [hpf] at this
      rw [hfreshj] at this
      cases this
      rw [hv]
      exact Nat.zero_le _
  · intro p hp hstage
    simp only [outlineOkPosNext] at hp
    rcases mem_updateJob hp with h1 | ⟨j, hj, hpf, hv⟩
    · exact inv.completedStage p h1 hstage
    · rw [hv] at hstage
      simp [hf] at hstage

theorem invOutlineOkZero {s : PState} (inv : Inv s) {pre post : List PTask} {jid0 : Nat}
    {o : CourseOutline} (h : s.tasks = pre ++ PTask.outlineGen jid0 :: post)
    (hzero : o.modules.length = 0) :
    Inv (outlineOkZeroNext s pre post jid0 o) := by
  classical
  set f : JobRec → JobRec := fun j =>
    { j with
      currentStage := "completed"
      outlineGenerated := true
      outline := some o
      totalModules := o.modules.length
      hasCompletedAt := true } with hf
  obtain ⟨hnd, hmemS, hneS⟩ := invTasksRemoved inv h
  obtain ⟨hof, hmt, hft⟩ := survivorsFacts inv h f
  have hxmem : PTask.outlineGen jid0 ∈ s.tasks := by
    rw [h]
    exact List.mem_append.mpr (Or.inr (List.mem_cons_self _ _))
  have hfreshj : findJob s.jobs jid0 = some freshJob := inv.outlineFresh jid0 hxmem
  refine ⟨jobsBoundUpdate inv f jid0, jobsNodupUpdate inv f jid0, hnd, hof, hmt, hft, ?_, ?_⟩
  · intro p hp
    simp only [outlineOkZeroNext] at hp
    rcases mem_updateJob hp with h1 | ⟨j, hj, hpf, hv⟩
    · exact inv.mgBound p h1
    · have : findJob s.jobs (Prod.fst p) = some j := findJob_of_mem_nodup inv.jobsNodup hj
      rw [hpf, hfreshj] at this
      cases this
      rw [hv]
      exact Nat.zero_le _
  · intro p hp hstage
    simp only [outlineOkZeroNext] at hp
    rcases mem_updateJob hp with h1 | ⟨j, hj, hpf, hv⟩
    · exact inv.completedStage p h1 hstage
    · have : findJob s.jobs (Prod.fst p) = some j := findJob_of_mem_nodup inv.jobsNodup hj
      rw [hpf, hfreshj] at this
      cases this
      rw [hv]
      simp [hf, freshJob, hzero]

theorem invModuleOk {s : PState} (inv : Inv s) {pre post : List PTask}
    {jid0 i : Nat} {o : CourseOutline} {d : Nat} {c : GenModuleContent}
    (h : s.tasks = pre ++ PTask.moduleGen jid0 i o d :: post)
    (hi : i < o.modules.length) :
    Inv (moduleOkNextState s pre post jid0 i o c) := by
  classical
  obtain ⟨hnd, hmemS, hneS⟩ := invTasksRemoved inv h
  obtain ⟨hof, hmt, hft⟩ := survivorsFacts inv h (moduleOkUpd i o.modules.length)
  have hxmem : PTask.moduleGen jid0 i o d ∈ s.tasks := by
    rw [h]
    exact List.mem_append.mpr (Or.inr (List.mem_cons_self _ _))
  obtain ⟨j0, hj0, hj0tm, hj0mg, hj0lt⟩ := inv.moduleTask jid0 i o d hxmem
  have hnewId : PTask.jobId
      (if o.modules.length ≤ i + 1 then PTask.finalizeGen jid0
        else PTask.moduleGen jid0 (i + 1) o 0) = jid0 := by
    split <;> rfl
  have hnewModule : ¬ o.modules.length ≤ i + 1 →
      ∃ j, findJob (updateJob (moduleOkUpd i o.modules.length) s.jobs jid0) jid0 = some j ∧
        j.totalModules = o.modules.length ∧ j.modulesGenerated = i + 1 ∧
        i + 1 < o.modules.length := by
    intro hlast
    refine ⟨moduleOkUpd i o.modules.length j0, ?_, ?_, rfl, Nat.lt_of_not_le hlast⟩
    · rw [findJob_update_self, hj0]
      rfl
    · exact hj0tm
  have hnewFinal : o.modules.length ≤ i + 1 →
      ∃ j, findJob (updateJob (moduleOkUpd i o.modules.length) s.jobs jid0) jid0 = some j ∧
        j.modulesGenerated = j.totalModules := by
    intro hlast
    refine ⟨moduleOkUpd i o.modules.length j0, ?_, ?_⟩
    · rw [findJob_update_self, hj0]
      rfl
    · show i + 1 = j0.totalModules
      omega
  refine ⟨jobsBoundUpdate inv _ jid0, jobsNodupUpdate inv _ jid0, ?_, ?_, ?_, ?_, ?_, ?_⟩
  · refine tasksUnique_append_new hnd ?_
    rw [hnewId]
    intro hmemId
    obtain ⟨t, ht, hid⟩ := List.mem_map.mp hmemId
    exact hneS t ht hid
  · intro jid ht
    simp only [moduleOkNextState] at ht
    rcases List.mem_append.mp ht with h1 | h1
    · exact hof jid h1
    · rw [List.mem_singleton] at h1
      by_cases hlast : o.modules.length ≤ i + 1
      · rw [if_pos hlast] at h1
        exact absurd h1 (by simp)
      · rw [if_neg hlast] at h1
        exact absurd h1 (by simp)
  · intro jid i' o' d' ht
    simp only [moduleOkNextState] at ht
    rcases List.mem_append.mp ht with h1 | h1
    · exact hmt jid i' o' d' h1
    · rw [List.mem_singleton] at h1
      by_cases hlast : o.modules.length ≤ i + 1
      · rw [if_pos hlast] at h1
        exact absurd h1 (by simp)
      · rw [if_neg hlast] at h1
        obtain ⟨he1, he2, he3, he4⟩ := PTask.moduleGen.inj h1
        subst he1
        subst he2
        subst he3
        subst he4
        exact hnewModule hlast
  · intro jid ht
    simp only [moduleOkNextState] at ht
    rcases List.mem_append.mp ht with h1 | h1
    · exact hft jid h1
    · rw [List.mem_singleton] at h1
      by_cases hlast : o.modules.length ≤ i + 1
      · rw [if_pos hlast] at h1
        obtain he1 := PTask.finalizeGen.inj h1
        subst he1
        exact hnewFinal hlast
      · rw [if_neg hlast] at h1
        exact absurd h1 (by simp)
  · intro p hp
    simp only [moduleOkNextState] at hp
    rcases mem_updateJob hp with h1 | ⟨j, hj, hpf, hv⟩
    · exact inv.mgBound p h1
    · have hfind : findJob s.jobs (Prod.fst p) = some j := findJob_of_mem_nodup inv.jobsNodup hj
      rw [hpf, hj0] at hfind
      cases hfind
      rw [hv]
      show i + 1 ≤ j0.totalModules
      omega
  · intro p hp hstage
    simp only [moduleOkNextState] at hp
    rcases mem_updateJob hp with h1 | ⟨j, hj, hpf, hv⟩
    · exact inv.completedStage p h1 hstage
    · rw [hv] at hstage
      simp only [moduleOkUpd] at hstage
      by_cases hlast : o.modules.length ≤ i + 1
      · rw [if_pos hlast] at hstage
        exact absurd hstage (by decide)
      · rw [if_neg hlast] at hstage
        exact absurd hstage (stageNameFor_ne_completed (i + 1))

theorem invFinalizeOk {s : PState} (inv : Inv s) {pre post : List PTask} {jid0 : Nat}
    (h : s.tasks = pre ++ PTask.finalizeGen jid0 :: post) :
    Inv (finalizeOkNext s pre post jid0) := by
  classical
  set f : JobRec → JobRec := fun j =>
    { j with currentStage := "completed", hasCompletedAt := true } with hf
  obtain ⟨hnd, hmemS, hneS⟩ := invTasksRemoved inv h
  obtain ⟨hof, hmt, hft⟩ := survivorsFacts inv h f
  have hxmem : PTask.finalizeGen jid0 ∈ s.tasks := by
    rw [h]
    exact List.mem_append.mpr (Or.inr (List.mem_cons_self _ _))
  obtain ⟨j0, hj0, hj0eq⟩ := inv.finalizeTask jid0 hxmem
  refine ⟨jobsBoundUpdate inv f jid0, jobsNodupUpdate inv f jid0, hnd, hof, hmt, hft, ?_, ?_⟩
  · intro p hp
    simp only [finalizeOkNext] at hp
    rcases mem_updateJob hp with h1 | ⟨j, hj, hpf, hv⟩
    · exact inv.mgBound p h1
    · have hfind : findJob s.jobs (Prod.fst p) = some j := findJob_of_mem_nodup inv.jobsNodup hj
      rw [hpf, hj0] at hfind
      cases hfind
      rw [hv]
      exact Nat.le_of_eq hj0eq
  · intro p hp _
    simp only [finalizeOkNext] at hp
    rcases mem_updateJob hp with h1 | ⟨j, hj, hpf, hv⟩
    · rename_i hstage
      exact inv.completedStage p h1 hstage
    · have hfind : findJob s.jobs (Prod.fst p) = some j := findJob_of_mem_nodup inv.jobsNodup hj
      rw [hpf, hj0] at hfind
      cases hfind
      rw [hv]
      exact hj0eq

/-- The invariant is preserved by every transition. -/
theorem invStep {s s' : PState} (inv : Inv s) (hst : Step s s') : Inv s' := by
  cases hst with
  | start h => exact invStart inv
  | outlineErr pre post jid m h => exact invOutlineErr inv h
  | outlineOkPos pre post jid o h hpos => exact invOutlineOkPos inv h hpos
  | outlineOkZero pre post jid o h hzero => exact invOutlineOkZero inv h hzero
  | outlineFail pre post jid msg h => exact invOutlineFail inv h
  | moduleOk pre post jid i o d c h hi => exact invModuleOk inv h hi
  | moduleFailRetry pre post jid i o d msg j h hj hrc => exact invModuleFailRetry inv h
  | moduleFailFatal pre post jid i o d msg j h hj hrc => exact invModuleFailFatal inv h
  | finalizeOk pre post jid h => exact invFinalizeOk inv h
  | finalizeFail pre post jid h => exact invFinalizeFail inv h

/-- Every reachable state satisfies the invariant. -/
theorem invReach {s : PState} (hr : Reach s) : Inv s := by
  induction hr with
  | init => exact invInit
  | next hr hst ih => exact invStep ih hst

/-- No transition ever decreases a job's `modulesGenerated`. -/
theorem mgMono {s s' : PState} (inv : Inv s) (hst : Step s s') {jid : Nat} {j j' : JobRec}
    (hfind : findJob s.jobs jid = some j) (hfind' : findJob s'.jobs jid = some j') :
    j.modulesGenerated ≤ j'.modulesGenerated := by
  cases hst with
  | start h =>
    simp only [startNext] at hfind'
    rw [findJob_append, hfind] at hfind'
    cases hfind'
    exact Nat.le_refl _
  | outlineErr pre post jid0 m h =>
    simp only [outlineErrNext] at hfind'
    rw [hfind] at hfind'
    cases hfind'
    exact Nat.le_refl _
  | outlineOkPos pre post jid0 o h hpos =>
    simp only [outlineOkPosNext] at hfind'
    by_cases hj : jid = jid0
    · subst hj
      rw [findJob_update_self, hfind] at hfind'
      cases hfind'
      exact Nat.le_refl _
    · rw [findJob_update_ne _ _ hj, hfind] at hfind'
      cases hfind'
      exact Nat.le_refl _
  | outlineOkZero pre post jid0 o h hzero =>
    simp only [outlineOkZeroNext] at hfind'
    by_cases hj : jid = jid0
    · subst hj
      rw [findJob_update_self, hfind] at hfind'
      cases hfind'
      exact Nat.le_refl _
    · rw [findJob_update_ne _ _ hj, hfind] at hfind'
      cases hfind'
      exact Nat.le_refl _
  | outlineFail pre post jid0 msg h =>
    simp only [outlineFailNext] at hfind'
    by_cases hj : jid = jid0
    · subst hj
      rw [findJob_update_self, hfind] at hfind'
      cases hfind'
      exact Nat.le_refl _
    · rw [findJob_update_ne _ _ hj, hfind] at hfind'
      cases hfind'
      exact Nat.le_refl _
  | moduleOk pre post jid0 i o d c h hi =>
    simp only [moduleOkNextState] at hfind'
    by_cases hj : jid = jid0
    · subst hj
      have hxmem : PTask.moduleGen jid i o d ∈ s.tasks := by
        rw [h]
        exact List.mem_append.mpr (Or.inr (List.mem_cons_self _ _))
      obtain ⟨j0, hj0, _, hj0mg, _⟩ := inv.moduleTask jid i o d hxmem
      rw [hfind] at hj0
      cases hj0
      rw [findJob_update_self, hfind] at hfind'
      cases hfind'
      show j.modulesGenerated ≤ i + 1
      omega
    · rw [findJob_update_ne _ _ hj, hfind] at hfind'
      cases hfind'
      exact Nat.le_refl _
  | moduleFailRetry pre post jid0 i o d msg jr h hjr hrc =>
    simp only [moduleFailRetryNext] at hfind'
    by_cases hj : jid = jid0
    · subst hj
      rw [findJob_update_self, hfind] at hfind'
      cases hfind'
      exact Nat.le_refl _
    · rw [findJob_update_ne _ _ hj, hfind] at hfind'
      cases hfind'
      exact Nat.le_refl _
  | moduleFailFatal pre post jid0 i o d msg jr h hjr hrc =>
    simp only [moduleFailFatalNext] at hfind'
    by_cases hj : jid = jid0
    · subst hj
      rw [findJob_update_self, hfind] at hfind'
      cases hfind'
      exact Nat.le_refl _
    · rw [findJob_update_ne _ _ hj, hfind] at hfind'
      cases hfind'
      exact Nat.le_refl _
  | finalizeOk pre post jid0 h =>
    simp only [finalizeOkNext] at hfind'
    by_cases hj : jid = jid0
    · subst hj
      rw [findJob_update_self, hfind] at hfind'
      cases hfind'
      exact Nat.le_refl _
    · rw [findJob_update_ne _ _ hj, hfind] at hfind'
      cases hfind'
      exact Nat.le_refl _
  | finalizeFail pre post jid0 h =>
    simp only [finalizeFailNext] at hfind'
    rw [hfind] at hfind'
    cases hfind'
    exact Nat.le_refl _

-- =============================================================================
-- Repair-loop lemmas
-- =============================================================================

theorem repairLoop_calls_le (schema : Option JsonSchema) (llm : RepairPayload → String)
    (opts : RepairOptions) :
    ∀ n attempt cur lastErr,
      (repairLoop schema llm opts n attempt cur lastErr).repairCalls ≤ n := by
  intro n
  induction n with
  | zero =>
    intro attempt cur lastErr
    simp [repairLoop]
  | succ k ih =>
    intro attempt cur lastErr
    simp only [repairLoop]
    cases hc : attemptCycle schema cur with
    | ok out => simp
    | error e =>
      simp only []
      exact Nat.succ_le_succ (ih _ _ _)

theorem repairLoop_allfail (schema : Option JsonSchema) (llm : RepairPayload → String)
    (opts : RepairOptions)
    (hall : ∀ t, ∃ e, attemptCycle schema t = Except.error e) :
    ∀ n, 0 < n → ∀ attempt cur lastErr,
      ∃ cand e, attemptCycle schema cand = Except.error e ∧
        repairLoop schema llm opts n attempt cur lastErr =
          ⟨Except.error (repairFailureMsg opts.maxAttempts (some e)), n, n⟩ := by
  intro n
  induction n with
  | zero =>
    intro h
    exact absurd h (by omega)
  | succ k ih =>
    intro _ attempt cur lastErr
    obtain ⟨e0, he0⟩ := hall cur
    by_cases hk : 0 < k
    · obtain ⟨cand, e, hce, hrec⟩ := ih hk (attempt + 1)
        (repairStructuredJson llm
          ⟨opts.format, opts.schemaName, opts.schemaDescription,
            cur.take promptTruncationLimit, e0,
            opts.originalInput.map (fun s => s.take promptTruncationLimit),
            attempt + 1⟩)
        (some e0)
      refine ⟨cand, e, hce, ?_⟩
      simp only [repairLoop, he0, hrec]
    · have hk0 : k = 0 := by omega
      subst hk0
      exact ⟨cur, e0, he0, by simp [repairLoop, he0]⟩

theorem repairLoop_first_ok (schema : Option JsonSchema) (llm : RepairPayload → String)
    (opts : RepairOptions) {cur out : String}
    (hc : attemptCycle schema cur = Except.ok out) :
    ∀ n, 0 < n → ∀ attempt lastErr,
      repairLoop schema llm opts n attempt cur lastErr = ⟨Except.ok out, 0, 1⟩ := by
  intro n hn attempt lastErr
  cases n with
  | zero => exact absurd hn (by omega)
  | succ k => simp [repairLoop, hc]

-- =============================================================================
-- Reachability of the C5 trace
-- =============================================================================

theorem reachC5s3 : Reach c5s3 := by
  have h1 : Reach c5s1 := Reach.next Reach.init (Step.start initialState (Or.inl rfl))
  have h2 : Reach c5s2 :=
    Reach.next h1 (Step.outlineOkPos c5s1 [] [] 0 c5Outline rfl (by decide))
  exact Reach.next h2 (Step.moduleOk c5s2 [] [] 0 0 c5Outline 0 c5Content rfl (by decide))

theorem reachC5s9 : Reach c5s9 := by
  have h3 : Reach c5s3 := reachC5s3
  have h4 : Reach c5s4 :=
    Reach.next h3
      (Step.moduleFailRetry c5s3 [] [] 0 1 c5Outline 0 "AI API error" c5job3 rfl (by decide)
        (by decide))
  have h5 : Reach c5s5 :=
    Reach.next h4
      (Step.moduleFailRetry c5s4 [] [] 0 1 c5Outline 2000 "AI API error" c5job4 rfl (by decide)
        (by decide))
  have h6 : Reach c5s6 :=
    Reach.next h5
      (Step.moduleFailFatal c5s5 [] [] 0 1 c5Outline 4000 "AI API error" c5job5 rfl (by decide)
        (by decide))
  have h7 : Reach c5s7 := Reach.next h6 (Step.start c5s6 (Or.inr rfl))
  have h8 : Reach c5s8 :=
    Reach.next h7 (Step.outlineOkPos c5s7 [] [] 1 c5Outline rfl (by decide))
  exact Reach.next h8 (Step.moduleOk c5s8 [] [] 1 0 c5Outline 0 c5Content rfl (by decide))

-- =============================================================================
-- Claim theorems
-- =============================================================================

set_option maxRecDepth 100000

/-- C1 (counterexample): the claim as stated — three retries with delays
2s/4s/8s and the capsule failing only at the 4th consecutive failure — is
false at module index 0: starting from `retryCount = 0`, the code schedules
exactly two retries (2000 ms and 4000 ms), the first two failures change no
capsule status, and already the 3rd consecutive failure sets the capsule to
`failed` with the message "Failed to generate module 1 after 3 attempts"
and schedules nothing further. -/
theorem c1_counterexample :
    failureSeq 0 3 0 =
      [⟨1, none, some (2000, 0)⟩, ⟨2, none, some (4000, 0)⟩,
        ⟨2, some (CapsuleStatus.failed, "Failed to generate module 1 after 3 attempts"),
          none⟩] ∧
    (failureSeq 0 3 0).filterMap ModuleFailureEffects.scheduledRetry = [(2000, 0), (4000, 0)] ∧
    ((failureSeq 0 3 0).map ModuleFailureEffects.statusUpdate).take 2 = [none, none] := by
  exact ⟨rfl, rfl, rfl⟩

/-- C1 (amended): for every module index `i`, a run of consecutive
module-content failures starting from `retryCount = 0` behaves as follows:
the 1st failure stores retry count 1 and reschedules the same index after
2^1 seconds, the 2nd failure stores retry count 2 and reschedules after
2^2 seconds, and the 3rd failure (and no earlier one) sets the capsule
status to `failed` with the message
"Failed to generate module {i+1} after 3 attempts", leaves the stored
retry count unchanged and schedules nothing further — i.e. two retries
(2s, 4s), with the 3rd failure terminal. -/
theorem c1_amended (i : Nat) :
    failureSeq i 3 0 =
      [⟨1, none, some (2000, i)⟩, ⟨2, none, some (4000, i)⟩,
        ⟨2, some (CapsuleStatus.failed,
          "Failed to generate module " ++ toString (i + 1) ++ " after 3 attempts"), none⟩] := by
  simp [failureSeq, moduleFailureHandler]

/-- C2 (counterexample): the concrete drag-drop output of the claim (one
item, two targets, `target2` accepting nothing) violates the spec's
drag-drop gate, yet the module-content path accepts the response: the
Convex argument validators pass (they check only the shapes of title,
description, introduction, learningObjectives, moduleSummary and the
lesson rows, never the lesson content, which is `v.any()`), no content
schema validation or repair cycle runs, and the invalid question is
persisted verbatim inside the lesson content. -/
theorem c2_counterexample :
    specDragDropGate badDragDropQuestion = false ∧
    processModuleResponse 0 ⟨"Module 1", none⟩ c2ResponseText = Except.ok c2Saved ∧
    c2Saved.lessonRows.map LessonRow.content = [c2LessonContent] := by
  exact ⟨rfl, rfl, rfl⟩

/-- C2 (amended): the MCQ / fill-blanks / drag-drop rules appear only in
the module-content prompt; they are not validation gates in code.  A
generator response that parses as JSON is persisted whenever the mutation
arguments built from it pass `saveGeneratedModule`'s Convex argument
validators (shape checks on the module fields and the lesson rows — a
validator rejection or a `.map` TypeError on a truthy non-array `lessons`
throws instead, persisting nothing); and every persisted lesson row stores
the content `lesson.content || lesson` verbatim through `v.any()`, with
type `"mixed"` — no rule about practice questions is ever consulted and no
repair engine runs on this path. -/
theorem c2_amended :
    (∀ (mi : Nat) (mo : ModuleOutlineInfo) (text : String) (content : Json)
        (saved : SavedModule),
      extractJsonFromResponse text = Except.ok content →
      buildSavedModule mi mo content = Except.ok saved →
      processModuleResponse mi mo text = Except.ok saved) ∧
    (∀ (idx : Nat) (lesson : Json) (row : LessonRow),
      lessonRowOf idx lesson = Except.ok row →
      row.content = lessonContentOf lesson ∧ row.type = "mixed") := by
  constructor
  · intro mi mo text content saved hparse hbuild
    simp only [processModuleResponse, hparse]
    exact hbuild
  · intro idx lesson row hrow
    unfold lessonRowOf at hrow
    by_cases hn : jsonIsNull lesson = true
    · simp [hn] at hrow
    · rw [if_neg hn] at hrow
      cases h1 : vString (jsOrElse (lesson.getField "title")
          (Json.str ("Lesson " ++ toString (idx + 1)))) with
      | error e => rw [h1] at hrow; simp at hrow
      | ok t =>
        rw [h1] at hrow
        cases h2 : vOptionalString (lesson.getField "description") with
        | error e => rw [h2] at hrow; simp at hrow
        | ok d =>
          rw [h2] at hrow
          simp only [Except.ok.injEq] at hrow
          rw [← hrow]
          exact ⟨rfl, rfl⟩

/-- C2 (witness): both parts of the amended theorem at a concrete
validator-passing response — it is persisted, and its lesson row stores
the lesson's content verbatim with type `"mixed"`. -/
theorem c2_witness :
    processModuleResponse 1 ⟨"Module 2", none⟩ c2GoodText = Except.ok c2GoodSaved ∧
    ((⟨"Lesson A", none, 0, "mixed", Json.obj [("sections", Json.arr [])]⟩ :
        LessonRow).content = lessonContentOf c2GoodLesson ∧
      (⟨"Lesson A", none, 0, "mixed", Json.obj [("sections", Json.arr [])]⟩ :
        LessonRow).type = "mixed") :=
  ⟨c2_amended.1 1 ⟨"Module 2", none⟩ c2GoodText c2GoodResponse c2GoodSaved rfl rfl,
    c2_amended.2 0 c2GoodLesson
      ⟨"Lesson A", none, 0, "mixed", Json.obj [("sections", Json.arr [])]⟩ rfl⟩

/-- C3: `validateAndCorrectJson` issues at most `maxAttempts` LLM repair
calls for every input and schema; on input for which every parse/validate
cycle fails it runs exactly `maxAttempts` cycles, issues exactly
`maxAttempts` repair calls, and throws an error whose message embeds the
last parse/validation error. -/
theorem c3_bounded_attempts (jsonString : String) (schema : Option JsonSchema)
    (llm : RepairPayload → String) (opts : RepairOptions) :
    (validateAndCorrectJson jsonString schema llm opts).repairCalls ≤ opts.maxAttempts ∧
    ((∀ t, ∃ e, attemptCycle schema t = Except.error e) → 0 < opts.maxAttempts →
      (validateAndCorrectJson jsonString schema llm opts).cycles = opts.maxAttempts ∧
      (validateAndCorrectJson jsonString schema llm opts).repairCalls = opts.maxAttempts ∧
      ∃ e, (∃ cand, attemptCycle schema cand = Except.error e) ∧
        (validateAndCorrectJson jsonString schema llm opts).result =
          Except.error ("Failed to validate JSON after " ++ toString opts.maxAttempts ++
            " attempts: " ++ e)) := by
  constructor
  · exact repairLoop_calls_le schema llm opts opts.maxAttempts 0 _ none
  · intro hall hpos
    obtain ⟨cand, e, hce, heq⟩ := repairLoop_allfail schema llm opts hall opts.maxAttempts
      hpos 0 (stripMarkdownFences jsonString) none
    unfold validateAndCorrectJson
    rw [heq]
    exact ⟨rfl, rfl, e, ⟨cand, hce⟩, rfl⟩

/-- C3 (witness): a permanently invalid run — a schema rejecting every
value — exhausts exactly the default five attempts. -/
theorem c3_witness :
    (validateAndCorrectJson "this is not JSON" (some rejectAllSchema)
      (fun _ => "still not JSON") defaultRepairOptions).repairCalls ≤ 5 ∧
    (validateAndCorrectJson "this is not JSON" (some rejectAllSchema)
      (fun _ => "still not JSON") defaultRepairOptions).cycles = 5 := by
  have hall : ∀ t, ∃ e, attemptCycle (some rejectAllSchema) t = Except.error e := by
    intro t
    cases hp : jsonParse (fixLatexEscapes (stripMarkdownFences t)) with
    | none => exact ⟨jsonParseErrorMsg, by simp [attemptCycle, hp]⟩
    | some v => exact ⟨"Required field is missing", by simp [attemptCycle, hp, rejectAllSchema]⟩
  have h2 := (c3_bounded_attempts "this is not JSON" (some rejectAllSchema)
    (fun _ => "still not JSON") defaultRepairOptions).2 hall (by decide)
  exact ⟨(c3_bounded_attempts "this is not JSON" (some rejectAllSchema)
    (fun _ => "still not JSON") defaultRepairOptions).1, h2.1⟩

/-- C4 (counterexample): the claim — first-attempt success with a
semantically equal document and zero repair calls on every
schema-satisfying JSON input — is false at the input `{"a":[]}` with a
schema requiring property `a`: the input parses and satisfies the schema,
yet the engine's empty-array stripping removes the property before
validation, so the run issues five LLM repair calls and fails. -/
theorem c4_counterexample :
    jsonParse emptyArrayFieldDoc = some (Json.obj [("a", Json.arr [])]) ∧
    requireFieldA (Json.obj [("a", Json.arr [])]) = Except.ok (Json.obj [("a", Json.arr [])]) ∧
    (validateAndCorrectJson emptyArrayFieldDoc (some requireFieldA)
      (fun _ => emptyArrayFieldDoc) defaultRepairOptions).repairCalls = 5 ∧
    (validateAndCorrectJson emptyArrayFieldDoc (some requireFieldA)
      (fun _ => emptyArrayFieldDoc) defaultRepairOptions).result =
      Except.error "Failed to validate JSON after 5 attempts: Required property a is missing" := by
  exact ⟨rfl, rfl, rfl, rfl⟩

/-- C4 (amended): whenever the first parse/validate cycle on the
fence-stripped input succeeds — i.e. the input still parses and satisfies
the schema after the deterministic normalisations (fence stripping, LaTeX
escape fixing, empty-array-field removal) — `validateAndCorrectJson`
succeeds on attempt 1 with zero LLM repair calls and one cycle, returning
the pretty-printed serialization of the value the schema's `parse` returns
on the normalised document (zod's transformed output — unknown keys
stripped, fields in schema order — not in general the input document). -/
theorem c4_amended (s : String) (schema : Option JsonSchema) (llm : RepairPayload → String)
    (opts : RepairOptions) (out : String)
    (hcycle : attemptCycle schema (stripMarkdownFences s) = Except.ok out)
    (hpos : 0 < opts.maxAttempts) :
    validateAndCorrectJson s schema llm opts = ⟨Except.ok out, 0, 1⟩ := by
  unfold validateAndCorrectJson
  exact repairLoop_first_ok schema llm opts hcycle opts.maxAttempts hpos 0 none

/-- C4 (witness): the amended theorem applied to the valid input `{"a":1}`
under the schema requiring property `a`. -/
theorem c4_witness :
    validateAndCorrectJson intFieldDoc (some requireFieldA) (fun _ => "")
      defaultRepairOptions = ⟨Except.ok "\x7b\n  \"a\": 1\n\x7d", 0, 1⟩ :=
  c4_amended intFieldDoc (some requireFieldA) (fun _ => "") defaultRepairOptions
    "\x7b\n  \"a\": 1\n\x7d" rfl (by decide)

/-- C5: the module-order invariant is violated by the code on retry.  The
explicit trace: a capsule's first generation run persists module 0 of a
two-module outline, then module 1 fails three times and the capsule is
failed; the user retries, which re-enters the pipeline at the outline
stage without deleting the previously persisted module, and the second
run's module 0 success persists a second module with order 0 — a reachable
store state whose module orders are `[0, 0]`: neither unique nor a dense
`0..n-1` range. -/
theorem c5_retry_duplicates_module_order :
    Reach c5s9 ∧
    c5s9.modules.map StoreModule.order = [0, 0] ∧
    ¬ (c5s9.modules.map StoreModule.order).Nodup := by
  exact ⟨reachC5s9, by decide, by decide⟩

/-- C6 (counterexample): the claim — the generator's message is stored
verbatim whenever the message field is present — fails at the present but
empty message: JavaScript's `||` treats `""` as absent, so the stored
error message is the fallback "Content generation failed", not the
verbatim empty string. -/
theorem c6_counterexample :
    runOutlineHandler (OutlineAIResult.errObj (some "")) =
      ⟨[(CapsuleStatus.failed, some "Content generation failed")], [], []⟩ ∧
    "" ≠ "Content generation failed" := by
  exact ⟨rfl, by decide⟩

/-- C6 (amended): whenever the outline generator returns a structured
error object whose message is present and non-empty, the orchestrator sets
the capsule status directly to `failed` with the message stored verbatim,
performs no job-stage update, schedules no retry and no further stage, and
the capsule never enters `generating_content` in that run. -/
theorem c6_outline_rejection_terminal (m : String) (hm : m ≠ "") :
    runOutlineHandler (OutlineAIResult.errObj (some m)) =
      ⟨[(CapsuleStatus.failed, some m)], [], []⟩ ∧
    (∀ u ∈ (runOutlineHandler (OutlineAIResult.errObj (some m))).statusUpdates,
      Prod.fst u ≠ CapsuleStatus.generatingContent) ∧
    (runOutlineHandler (OutlineAIResult.errObj (some m))).scheduled = [] := by
  have h : runOutlineHandler (OutlineAIResult.errObj (some m)) =
      ⟨[(CapsuleStatus.failed, some m)], [], []⟩ := by
    simp [runOutlineHandler, jsStrOrDefault, hm]
  refine ⟨h, ?_, by rw [h]⟩
  rw [h]
  intro u hu
  rw [List.mem_singleton] at hu
  subst hu
  show CapsuleStatus.failed ≠ CapsuleStatus.generatingContent
  decide

/-- C6 (witness): the amended theorem applied to a concrete non-empty
rejection message. -/
theorem c6_witness :
    runOutlineHandler (OutlineAIResult.errObj (some "Topic rejected by safety pre-check")) =
      ⟨[(CapsuleStatus.failed, some "Topic rejected by safety pre-check")], [], []⟩ :=
  (c6_outline_rejection_terminal "Topic rejected by safety pre-check" (by decide)).1

/-- C7 (counterexample): the claim — no reachable intermediate state in
which a generation job exists while the capsule status is still `pending`
or `failed` — is false: in the start handler's mutation trace on a pending
capsule, the state right after `createGenerationJob` commits has a job
record while the capsule status is still `pending`. -/
theorem c7_counterexample :
    afterCreateJob c7Store ∈ startTrace c7Store ∧
    (afterCreateJob c7Store).jobCount = 1 ∧
    (afterCreateJob c7Store).capsule = some ⟨CapsuleStatus.pending, none⟩ := by
  refine ⟨?_, rfl, rfl⟩
  simp [startTrace]

/-- C7 (amended): the job record is created one mutation before the status
transition, not atomically with it: on a startable capsule, the state after
`createGenerationJob` has the job while the capsule status is unchanged,
the very next mutation flips the status to `generating_outline`, and at the
end of the start handler the job exists and the status is
`generating_outline`. -/
theorem c7_job_creation_precedes_status (st : StartStore) (c : CapsuleRec)
    (hc : st.capsule = some c)
    (hs : c.status = CapsuleStatus.pending ∨ c.status = CapsuleStatus.failed) :
    ((afterCreateJob st).jobCount = st.jobCount + 1 ∧ (afterCreateJob st).capsule = some c) ∧
    (afterStatusUpdate (afterCreateJob st)).capsule =
      some ⟨CapsuleStatus.generatingOutline, c.errorMessage⟩ ∧
    generateCapsuleContentStart st =
      Except.ok (⟨true, none⟩, afterSchedule (afterStatusUpdate (afterCreateJob st))) ∧
    (afterSchedule (afterStatusUpdate (afterCreateJob st))).jobCount = st.jobCount + 1 ∧
    (afterSchedule (afterStatusUpdate (afterCreateJob st))).capsule =
      some ⟨CapsuleStatus.generatingOutline, c.errorMessage⟩ := by
  have hcond : ¬ (c.status ≠ CapsuleStatus.pending ∧ c.status ≠ CapsuleStatus.failed) := by
    rcases hs with h | h <;> simp [h]
  refine ⟨⟨rfl, by simp [afterCreateJob, hc]⟩, ?_, ?_, rfl, ?_⟩
  · simp [afterStatusUpdate, afterCreateJob, hc]
  · simp only [generateCapsuleContentStart, hc]
    rw [if_neg hcond]
  · simp [afterSchedule, afterStatusUpdate, afterCreateJob, hc]

/-- C7 (witness): the amended theorem applied to the pending capsule
store. -/
theorem c7_witness :
    generateCapsuleContentStart c7Store =
      Except.ok (⟨true, none⟩, afterSchedule (afterStatusUpdate (afterCreateJob c7Store))) :=
  (c7_job_creation_precedes_status c7Store ⟨CapsuleStatus.pending, none⟩ rfl
    (Or.inl rfl)).2.2.1

/-- C8: in every reachable pipeline state, every generation job record
satisfies `modulesGenerated ≤ totalModules`; no transition ever decreases a
job's `modulesGenerated` (so over any run the values the job passes
through are non-decreasing); and every job whose `currentStage` is
`"completed"` has `modulesGenerated` equal to `totalModules`. -/
theorem c8_monotonic_bounded_job_progress :
    (∀ s, Reach s → ∀ p ∈ s.jobs,
      (Prod.snd p : JobRec).modulesGenerated ≤ (Prod.snd p).totalModules) ∧
    (∀ s s', Reach s → Step s s' → ∀ jid j j',
      findJob s.jobs jid = some j → findJob s'.jobs jid = some j' →
      j.modulesGenerated ≤ j'.modulesGenerated) ∧
    (∀ s, Reach s → ∀ p ∈ s.jobs, (Prod.snd p : JobRec).currentStage = "completed" →
      (Prod.snd p).modulesGenerated = (Prod.snd p).totalModules) := by
  refine ⟨?_, ?_, ?_⟩
  · intro s hr p hp
    exact (invReach hr).mgBound p hp
  · intro s s' hr hst jid j j' hf hf'
    exact mgMono (invReach hr) hst hf hf'
  · intro s hr p hp h
    exact (invReach hr).completedStage p hp h

/-- C8 (witness): the bound applied at the concrete reachable state after
module 0 of a two-module outline succeeded: the job has generated 1 of 2
modules. -/
theorem c8_witness : c5job3.modulesGenerated ≤ c5job3.totalModules :=
  c8_monotonic_bounded_job_progress.1 c5s3 reachC5s3 (0, c5job3) (by decide)

/-- C9: `generateCapsuleContent` returns `{success: false, error}` without
throwing exactly when the capsule exists and its status is neither
`pending` nor `failed`; in that case it creates no job record and leaves
the store unchanged; and on a missing capsule it throws the synchronous
"Capsule not found" error instead of returning a result. -/
theorem c9_start_guard (st : StartStore) :
    (st.capsule = none → generateCapsuleContentStart st = Except.error "Capsule not found") ∧
    (∀ c, st.capsule = some c → c.status ≠ CapsuleStatus.pending →
      c.status ≠ CapsuleStatus.failed →
      generateCapsuleContentStart st =
        Except.ok (⟨false, some "Capsule is already being generated or completed"⟩, st)) ∧
    (∀ res st', generateCapsuleContentStart st = Except.ok (res, st') →
      res.success = false →
      ∃ c, st.capsule = some c ∧ c.status ≠ CapsuleStatus.pending ∧
        c.status ≠ CapsuleStatus.failed ∧ st' = st ∧
        res.error = some "Capsule is already being generated or completed") := by
  refine ⟨?_, ?_, ?_⟩
  · intro h
    simp [generateCapsuleContentStart, h]
  · intro c hc h1 h2
    simp only [generateCapsuleContentStart, hc]
    rw [if_pos ⟨h1, h2⟩]
  · intro res st' hok hsf
    cases hcap : st.capsule with
    | none => simp [generateCapsuleContentStart, hcap] at hok
    | some c =>
      simp only [generateCapsuleContentStart, hcap] at hok
      by_cases hcond : c.status ≠ CapsuleStatus.pending ∧ c.status ≠ CapsuleStatus.failed
      · rw [if_pos hcond] at hok
        obtain ⟨hres, hst'⟩ := Prod.mk.injEq .. ▸ Except.ok.inj hok
        refine ⟨c, rfl, hcond.1, hcond.2, hst'.symm, ?_⟩
        rw [← hres]
      · rw [if_neg hcond] at hok
        obtain ⟨hres, _⟩ := Prod.mk.injEq .. ▸ Except.ok.inj hok
        rw [← hres] at hsf
        simp at hsf

/-- C9 (witness): the guard applied to a completed capsule (soft failure,
store untouched) and to a missing capsule (synchronous throw). -/
theorem c9_witness :
    generateCapsuleContentStart ⟨some ⟨CapsuleStatus.completed, none⟩, 0, 0⟩ =
      Except.ok (⟨false, some "Capsule is already being generated or completed"⟩,
        ⟨some ⟨CapsuleStatus.completed, none⟩, 0, 0⟩) ∧
    generateCapsuleContentStart ⟨none, 0, 0⟩ = Except.error "Capsule not found" := by
  constructor
  · exact (c9_start_guard ⟨some ⟨CapsuleStatus.completed, none⟩, 0, 0⟩).2.1
      ⟨CapsuleStatus.completed, none⟩ rfl (by decide) (by decide)
  · exact (c9_start_guard ⟨none, 0, 0⟩).1 rfl

/-- C10: `sectionQuizSchema` accepts an mcq item only if its options array
has exactly 4 entries and its `correctAnswer` is one of them; and an mcq
item that passes the base field checks, carries exactly 4 options, and
whose `correctAnswer` is not among them is rejected with the violation
"Correct answer must be one of the provided options". -/
theorem c10_mcq_answer_membership :
    (∀ (j : Json) (opts : List String) (ca : String),
      (Json.getField j "type").bind Json.asStr = some "mcq" →
      quizOptionsOf j = some opts →
      (Json.getField j "correctAnswer").bind Json.asStr = some ca →
      sectionQuizIssues j = [] →
      opts.length = 4 ∧ ca ∈ opts) ∧
    (∀ (j : Json) (opts : List String) (ca : String),
      sectionQuizBaseIssues j = [] →
      (Json.getField j "type").bind Json.asStr = some "mcq" →
      quizOptionsOf j = some opts →
      (Json.getField j "correctAnswer").bind Json.asStr = some ca →
      opts.length = 4 → ca ∉ opts →
      "Correct answer must be one of the provided options" ∈ sectionQuizIssues j ∧
        sectionQuizIssues j ≠ []) := by
  constructor
  · intro j opts ca ht hopts hca hacc
    have hbase : sectionQuizBaseIssues j = [] := by
      cases hb : sectionQuizBaseIssues j with
      | nil => rfl
      | cons a l =>
        rw [sectionQuizIssues, hb] at hacc
        exact absurd hacc (by simp)
    rw [sectionQuizIssues, hbase] at hacc
    rw [sectionQuizRefineIssues, ht, hopts, hca] at hacc
    simp only [Option.getD_some] at hacc
    by_cases h4 : opts.length = 4
    · refine ⟨h4, ?_⟩
      simp [h4] at hacc
      exact hacc
    · simp [h4] at hacc
  · intro j opts ca hbase ht hopts hca h4 hnmem
    have hrefine : sectionQuizIssues j =
        ["Correct answer must be one of the provided options"] := by
      rw [sectionQuizIssues, hbase]
      rw [sectionQuizRefineIssues, ht, hopts, hca]
      simp [h4, hnmem]
    rw [hrefine]
    exact ⟨by simp, by simp⟩

/-- C10 (witness): the theorem applied to a concrete accepted mcq item and
to a concrete mcq item whose answer is not among its four options. -/
theorem c10_witness :
    (["A", "B", "C", "D"].length = 4 ∧ "B" ∈ ["A", "B", "C", "D"]) ∧
    ("Correct answer must be one of the provided options" ∈
        sectionQuizIssues mcqBadAnswerItem ∧
      sectionQuizIssues mcqBadAnswerItem ≠ []) := by
  constructor
  · exact c10_mcq_answer_membership.1 mcqGoodItem ["A", "B", "C", "D"] "B" rfl rfl rfl rfl
  · exact c10_mcq_answer_membership.2 mcqBadAnswerItem ["A", "B", "C", "D"] "E" rfl rfl rfl
      rfl rfl (by decide)

end Opennote
